import Mathlib

/-!
Verification of the core of the `eecs483-procedures` compiler
(resolution, lowering to block-argument SSA, code generation),
shallowly embedded from the Rust sources in `src/`.

Conventions of the embedding:
* Rust `usize` indices of identifiers become `Nat`; `i64` values become
  `Int` (two's-complement wraparound is applied explicitly where the
  claims depend on it).
* `im::HashMap` / `std::collections::HashMap` are modelled as
  association lists with insert-at-front semantics; lookup returns the
  most recent insertion for a key, which coincides with hash-map
  lookup after replacement.
* Rust panics (`panic!`, `unimplemented!`, `.expect`, `HashMap` index)
  are modelled as explicit failure constructors of `Except`-style
  results.
* Interpreter loops are driven by an explicit fuel parameter; `none`
  means the fuel ran out.
-/

namespace Snake

/- ------------------------- identifiers.rs ------------------------- -/

/-- `VarName(usize, String)` from `src/identifiers.rs`; derived
`PartialEq`/`Eq` compares both fields. -/
structure VarName where
  idx : Nat
  hint : String
deriving DecidableEq, Repr

/-- `FunName` from `src/identifiers.rs`. -/
inductive FunName where
  | Mangled (idx : Nat) (hint : String)
  | Unmangled (hint : String)
deriving DecidableEq, Repr

/-- `FunName::hint`. -/
def FunName.hint : FunName → String
  | .Mangled _ h => h
  | .Unmangled h => h

/-- `BlockName(usize, String)` from `src/identifiers.rs`. -/
structure BlockName where
  idx : Nat
  hint : String
deriving DecidableEq, Repr

/-- The state of `IdGen<Id>`: just the counter. -/
structure IdGen where
  count : Nat
deriving DecidableEq, Repr

/-- `IdGen::new`. -/
def IdGen.new : IdGen := { count := 0 }

/-- `IdGen::fresh` for `VarName`: returns the identifier built from the
current count, and the incremented generator. -/
def IdGen.freshVar (g : IdGen) (hint : String) : VarName × IdGen :=
  ({ idx := g.count, hint := hint }, { count := g.count + 1 })

/-- `IdGen::fresh` for `FunName` (`Identifier for FunName` builds a
`Mangled` name). -/
def IdGen.freshFun (g : IdGen) (hint : String) : FunName × IdGen :=
  (.Mangled g.count hint, { count := g.count + 1 })

/-- `IdGen::fresh` for `BlockName`. -/
def IdGen.freshBlock (g : IdGen) (hint : String) : BlockName × IdGen :=
  ({ idx := g.count, hint := hint }, { count := g.count + 1 })

/- ----------------------------- span.rs ---------------------------- -/

/-- `SrcLoc` from `src/span.rs`. -/
structure SrcLoc where
  start_ix : Nat
  end_ix : Nat
deriving DecidableEq, Repr

/- ----------------------------- ast.rs ----------------------------- -/

/-- `Prim` from `src/ast.rs`. -/
inductive Prim where
  | Add1 | Sub1
  | Add | Sub | Mul
  | Not
  | And | Or
  | Lt | Le | Gt | Ge | Eq | Neq
deriving DecidableEq, Repr

/-- `Prim::arity` from `src/ast.rs`. -/
def Prim.arity : Prim → Nat
  | .Add1 | .Sub1 | .Not => 1
  | _ => 2

/-- `Display for Prim` from `src/pretty.rs` (used for variable hints in
the lowerer). -/
def Prim.display : Prim → String
  | .Add1 => "add1"
  | .Sub1 => "sub1"
  | .Not => "!"
  | .Add => "+"
  | .Sub => "-"
  | .Mul => "*"
  | .And => "&&"
  | .Or => "||"
  | .Lt => "<"
  | .Le => "<="
  | .Gt => ">"
  | .Ge => ">="
  | .Eq => "=="
  | .Neq => "!="

/-- `Expr<Var, Fun>` from `src/ast.rs`.  `Binding` and `FunDecl` are
inlined as anonymous pairs/structures to keep the nested induction
manageable: a binding is `(var, loc, rhs)` and a declaration is
`(name, params, body, loc)`. -/
inductive Expr (V F : Type) where
  | Num (n : Int) (loc : SrcLoc)
  | Bool (b : Bool) (loc : SrcLoc)
  | Var (v : V) (loc : SrcLoc)
  | Prim (prim : Prim) (args : List (Expr V F)) (loc : SrcLoc)
  | Let (bindings : List ((V × SrcLoc) × Expr V F)) (body : Expr V F)
      (loc : SrcLoc)
  | If (cond thn els : Expr V F) (loc : SrcLoc)
  | FunDefs (decls : List (F × List (V × SrcLoc) × Expr V F × SrcLoc))
      (body : Expr V F) (loc : SrcLoc)
  | Call (fun_ : F) (args : List (Expr V F)) (loc : SrcLoc)

/-- `ExtDecl<Var, Fun>` from `src/ast.rs`. -/
structure ExtDecl (V F : Type) where
  name : F
  params : List (V × SrcLoc)
  loc : SrcLoc

/-- `Prog<Var, Fun>` from `src/ast.rs`. -/
structure Prog (V F : Type) where
  externs : List (ExtDecl V F)
  name : F
  param : V × SrcLoc
  body : Expr V F
  loc : SrcLoc

/-- Surface program: names are plain strings. -/
abbrev SurfExpr := Expr String String
abbrev SurfProg := Prog String String

/-- Bound program: resolved identifiers. -/
abbrev BoundExpr := Expr VarName FunName
abbrev BoundProg := Prog VarName FunName

/- ----------------------------- ssa.rs ----------------------------- -/

/-- `Immediate` from `src/ssa.rs`. -/
inductive Immediate where
  | Const (n : Int)
  | Var (v : VarName)
deriving DecidableEq, Repr

/-- `Prim1` from `src/ssa.rs`. -/
inductive Prim1 where
  | BitNot
  | IntToBool
deriving DecidableEq, Repr

/-- `Prim2` from `src/ssa.rs`. -/
inductive Prim2 where
  | Add | Sub | Mul
  | BitAnd | BitOr | BitXor
  | Lt | Le | Gt | Ge | Eq | Neq
deriving DecidableEq, Repr

/-- `Operation` from `src/ssa.rs`. -/
inductive Operation where
  | Immediate (imm : Immediate)
  | Prim1 (op : Prim1) (imm : Immediate)
  | Prim2 (op : Prim2) (imm1 imm2 : Immediate)
  | Call (fun_ : FunName) (args : List Immediate)
deriving DecidableEq, Repr

/-- `Branch` from `src/ssa.rs`. -/
structure Branch where
  target : BlockName
  args : List Immediate
deriving DecidableEq, Repr

/-- `Terminator` from `src/ssa.rs`. -/
inductive Terminator where
  | Return (imm : Immediate)
  | Branch (br : Branch)
  | ConditionalBranch (cond : Immediate) (thn els : BlockName)
deriving DecidableEq, Repr

mutual
/-- `BlockBody` from `src/ssa.rs`. -/
inductive BlockBody where
  | Terminator (t : Terminator)
  | Operation (dest : VarName) (op : Operation) (next : BlockBody)
  | SubBlocks (blocks : List BasicBlock) (next : BlockBody)
deriving Repr

/-- `BasicBlock` from `src/ssa.rs`. -/
inductive BasicBlock where
  | mk (label : BlockName) (params : List VarName) (body : BlockBody)
deriving Repr
end

/-- Field accessor for `BasicBlock.label`. -/
def BasicBlock.label : BasicBlock → BlockName
  | .mk l _ _ => l

/-- Field accessor for `BasicBlock.params`. -/
def BasicBlock.params : BasicBlock → List VarName
  | .mk _ p _ => p

/-- Field accessor for `BasicBlock.body`. -/
def BasicBlock.body : BasicBlock → BlockBody
  | .mk _ _ b => b

/-- `Extern` from `src/ssa.rs`. -/
structure Extern where
  name : FunName
  params : List VarName
deriving Repr

/-- `FunBlock` from `src/ssa.rs`. -/
structure FunBlock where
  name : FunName
  params : List VarName
  body : Branch
deriving Repr

/-- `Program` from `src/ssa.rs`. -/
structure Program where
  externs : List Extern
  funs : List FunBlock
  blocks : List BasicBlock
deriving Repr

/- --------------------------- frontend.rs -------------------------- -/

/-- `CompileErr` from `src/frontend.rs`. -/
inductive CompileErr where
  | UnboundVariable (name : String) (loc : SrcLoc)
  | DuplicateVariable (name : String) (loc : SrcLoc)
  | UnboundFunction (name : String) (loc : SrcLoc)
  | DuplicateFunction (name : String) (loc : SrcLoc)
  | DuplicateParameter (name : String) (loc : SrcLoc)
  | ArityMismatch (name : String) (expected found : Nat) (loc : SrcLoc)
deriving DecidableEq, Repr

/-- Failure of the resolver: either a reported `CompileErr` or a Rust
panic (`.expect` in `resolve_fun_decl`). -/
inductive RErr where
  | cerr (e : CompileErr)
  | panicked
deriving DecidableEq, Repr

/-- `EnvFun` from `src/frontend.rs`. -/
structure EnvFun where
  name : FunName
  arity : Nat
deriving DecidableEq, Repr

/-- `Env` from `src/frontend.rs` (the resolver's scope); the two
`im::HashMap`s are modelled as association lists whose lookup returns
the most recent insertion. -/
structure FEnv where
  vars : List (String × VarName)
  labels : List (String × EnvFun)
deriving Repr

/-- `Env::new`. -/
def FEnv.new : FEnv := { vars := [], labels := [] }

/-- `Env::insert_var`. -/
def FEnv.insertVar (e : FEnv) (k : String) (v : VarName) : FEnv :=
  { e with vars := (k, v) :: e.vars }

/-- `Env::get_var_name`. -/
def FEnv.getVarName (e : FEnv) (k : String) : Option VarName :=
  (e.vars.find? (fun p => p.1 == k)).map (·.2)

/-- `Env::insert_label`. -/
def FEnv.insertLabel (e : FEnv) (k : String) (f : FunName) (a : Nat) :
    FEnv :=
  { e with labels := (k, { name := f, arity := a }) :: e.labels }

/-- `Env::get_env_fun`. -/
def FEnv.getEnvFun (e : FEnv) (k : String) : Option EnvFun :=
  (e.labels.find? (fun p => p.1 == k)).map (·.2)

/-- `Resolver` from `src/frontend.rs`: the two identifier generators. -/
structure Resolver where
  vars : IdGen
  funs : IdGen
deriving DecidableEq, Repr

/-- `Resolver::new`. -/
def Resolver.new : Resolver := { vars := IdGen.new, funs := IdGen.new }

/-- The duplicate scan over `let` bindings in `resolve_expr`
(`HashSet::insert` returning `false` on the first repeated name). -/
def findDupBinding (seen : List String) :
    List ((String × SrcLoc) × SurfExpr) → Option (String × SrcLoc)
  | [] => none
  | (((x, loc), _) : (String × SrcLoc) × SurfExpr) :: rest =>
    if seen.contains x then some (x, loc)
    else findDupBinding (x :: seen) rest

/-- The duplicate scan in `resolve_params`. -/
def findDupParam (seen : List String) :
    List (String × SrcLoc) → Option (String × SrcLoc)
  | [] => none
  | (x, loc) :: rest =>
    if seen.contains x then some (x, loc)
    else findDupParam (x :: seen) rest

/-- The duplicate scan over `FunDefs` declarations in `resolve_expr`:
the code checks each declaration for duplication and, when fresh,
immediately allocates its mangled `FunName` and inserts it into the
scope.  Returns the updated scope and resolver or the offending name. -/
def checkInsertDecls (r : Resolver) (env : FEnv) (seen : List String) :
    List (String × List (String × SrcLoc) × SurfExpr × SrcLoc) →
    Except RErr (FEnv × Resolver)
  | [] => .ok (env, r)
  | (name, params, _, loc) :: rest =>
    if seen.contains name then
      .error (.cerr (.DuplicateFunction name loc))
    else
      let (fn, funs) := r.funs.freshFun name
      checkInsertDecls { r with funs := funs }
        (env.insertLabel name fn params.length) (name :: seen) rest

/-- The mapping part of `resolve_params`: allocate a fresh `VarName`
for each parameter and insert it into the scope. -/
def resolveParamsList (r : Resolver) (env : FEnv) :
    List (String × SrcLoc) → List (VarName × SrcLoc) × FEnv × Resolver
  | [] => ([], env, r)
  | (p, loc) :: rest =>
    let (v, vars) := r.vars.freshVar p
    let (tail, env2, r2) :=
      resolveParamsList { r with vars := vars } (env.insertVar p v) rest
    ((v, loc) :: tail, env2, r2)

/-- `Resolver::resolve_params`. -/
def resolveParams (r : Resolver) (params : List (String × SrcLoc))
    (env : FEnv) : Except RErr (List (VarName × SrcLoc) × FEnv × Resolver) :=
  match findDupParam [] params with
  | some (p, loc) => .error (.cerr (.DuplicateParameter p loc))
  | none => .ok (resolveParamsList r env params)

mutual
/-- `Resolver::resolve_expr`. -/
def resolveExpr (r : Resolver) (e : SurfExpr) (env : FEnv) :
    Except RErr (BoundExpr × Resolver) :=
  match e with
  | .Num n loc => .ok (.Num n loc, r)
  | .Bool b loc => .ok (.Bool b loc, r)
  | .Var x loc =>
    match env.getVarName x with
    | none => .error (.cerr (.UnboundVariable x loc))
    | some v => .ok (.Var v loc, r)
  | .Prim p args loc => do
    let (args2, r2) ← resolveExprList r args env
    .ok (.Prim p args2 loc, r2)
  | .Let bindings body loc =>
    match findDupBinding [] bindings with
    | some (x, xloc) => .error (.cerr (.DuplicateVariable x xloc))
    | none => do
      let (bindings2, env2, r2) ← resolveBindings r bindings env
      let (body2, r3) ← resolveExpr r2 body env2
      .ok (.Let bindings2 body2 loc, r3)
  | .If cond thn els loc => do
    let (cond2, r2) ← resolveExpr r cond env
    let (thn2, r3) ← resolveExpr r2 thn env
    let (els2, r4) ← resolveExpr r3 els env
    .ok (.If cond2 thn2 els2 loc, r4)
  | .FunDefs decls body loc => do
    let (env2, r2) ← checkInsertDecls r env [] decls
    let (decls2, r3) ← resolveDecls r2 decls env2
    let (body2, r4) ← resolveExpr r3 body env2
    .ok (.FunDefs decls2 body2 loc, r4)
  | .Call f args loc =>
    match env.getEnvFun f with
    | none => .error (.cerr (.UnboundFunction f loc))
    | some ef =>
      if ef.arity ≠ args.length then
        .error (.cerr (.ArityMismatch f ef.arity args.length loc))
      else do
        let (args2, r2) ← resolveExprList r args env
        .ok (.Call ef.name args2 loc, r2)

/-- Resolution of a list of argument expressions, each under a clone of
the current scope (the `map` + `collect` pattern in `resolve_expr`). -/
def resolveExprList (r : Resolver) (es : List SurfExpr) (env : FEnv) :
    Except RErr (List BoundExpr × Resolver) :=
  match es with
  | [] => .ok ([], r)
  | e :: rest => do
    let (e2, r2) ← resolveExpr r e env
    let (rest2, r3) ← resolveExprList r2 rest env
    .ok (e2 :: rest2, r3)

/-- The fold over `let` bindings in `resolve_expr`: allocate a fresh
`VarName`, resolve the right-hand side under the scope *before* the
insertion, then insert the binding. -/
def resolveBindings (r : Resolver)
    (bs : List ((String × SrcLoc) × SurfExpr)) (env : FEnv) :
    Except RErr (List ((VarName × SrcLoc) × BoundExpr) × FEnv × Resolver) :=
  match bs with
  | [] => .ok ([], env, r)
  | ((x, xloc), rhs) :: rest => do
    let (v, vars) := r.vars.freshVar x
    let (rhs2, r2) ← resolveExpr { r with vars := vars } rhs env
    let env2 := env.insertVar x v
    let (rest2, env3, r3) ← resolveBindings r2 rest env2
    .ok (((v, xloc), rhs2) :: rest2, env3, r3)

/-- `Resolver::resolve_fun_decl` mapped over the declarations of a
`FunDefs` (each under a clone of the extended scope). -/
def resolveDecls (r : Resolver)
    (ds : List (String × List (String × SrcLoc) × SurfExpr × SrcLoc))
    (env : FEnv) :
    Except RErr
      (List (FunName × List (VarName × SrcLoc) × BoundExpr × SrcLoc) ×
        Resolver) :=
  match ds with
  | [] => .ok ([], r)
  | (name, params, body, loc) :: rest => do
    match env.getEnvFun name with
    | none => .error .panicked
    | some ef => do
      let (params2, env2, r2) ← resolveParams r params env
      let (body2, r3) ← resolveExpr r2 body env2
      let (rest2, r4) ← resolveDecls r3 rest env
      .ok ((ef.name, params2, body2, loc) :: rest2, r4)
end

/-- The fold over extern declarations in `resolve_prog`.  The parameter
scope extension happens on a clone (`&mut env.clone()`) and is
discarded; the label insertion happens on the real scope. -/
def resolveExterns (r : Resolver) (env : FEnv) :
    List (ExtDecl String String) →
    Except RErr (List (ExtDecl VarName FunName) × FEnv × Resolver)
  | [] => .ok ([], env, r)
  | decl :: rest =>
    match env.getEnvFun decl.name with
    | some _ => .error (.cerr (.DuplicateFunction decl.name decl.loc))
    | none => do
      let name := FunName.Unmangled decl.name
      let (params2, _, r2) ← resolveParams r decl.params env
      let env2 := env.insertLabel decl.name name params2.length
      let (rest2, env3, r3) ← resolveExterns r2 env2 rest
      .ok ({ name := name, params := params2, loc := decl.loc } :: rest2,
        env3, r3)

/-- `Resolver::resolve_prog`. -/
def resolveProg (r : Resolver) (prog : SurfProg) :
    Except RErr (BoundProg × Resolver) := do
  let env := FEnv.new
  let name := FunName.Unmangled "entry"
  let env := env.insertLabel prog.name name 1
  let (externs2, env2, r2) ← resolveExterns r env prog.externs
  let (param, vars) := r2.vars.freshVar prog.param.1
  let r3 : Resolver := { r2 with vars := vars }
  let env3 := env2.insertVar prog.param.1 param
  let (body2, r4) ← resolveExpr r3 prog.body env3
  .ok ({ externs := externs2, name := name,
         param := (param, prog.param.2), body := body2,
         loc := prog.loc }, r4)

/- -------------------------- middle_end.rs ------------------------- -/

/-- `Lowerer` from `src/middle_end.rs`. -/
structure Lowerer where
  vars : IdGen
  funs : IdGen
  blocks : IdGen
deriving DecidableEq, Repr

/-- `From<Resolver> for Lowerer`: the variable and function counters
are moved from the resolver; the block counter starts fresh. -/
def Lowerer.fromResolver (r : Resolver) : Lowerer :=
  { vars := r.vars, funs := r.funs, blocks := IdGen.new }

/-- `Continuation` from `src/middle_end.rs`. -/
inductive Continuation where
  | Return
  | Block (dest : VarName) (next : BlockBody)

/-- `Continuation::invoke`. -/
def Continuation.invoke : Continuation → Immediate → BlockBody
  | .Return, imm => .Terminator (.Return imm)
  | .Block dest next, imm => .Operation dest (.Immediate imm) next

/-- `FunType` from `src/middle_end.rs`. -/
inductive FunType where
  | Extern
  | Local (captured : List VarName) (block_name : BlockName)

/-- `Env` from `src/middle_end.rs` (the lowerer's environment).
`locals` is a Rust `Vec` pushed at the back, so pushes append. -/
structure LEnv where
  funs : List (FunName × FunType)
  locals : List VarName

/-- `Env::new` (middle end). -/
def LEnv.new : LEnv := { funs := [], locals := [] }

/-- `Env::add_extern`. -/
def LEnv.addExtern (e : LEnv) (f : FunName) : LEnv :=
  { e with funs := (f, .Extern) :: e.funs }

/-- `Env::add_local_fun`: captures a snapshot of the current locals. -/
def LEnv.addLocalFun (e : LEnv) (f : FunName) (bn : BlockName) : LEnv :=
  { e with funs := (f, .Local e.locals bn) :: e.funs }

/-- `Vec::push` on `Env::locals`. -/
def LEnv.pushLocal (e : LEnv) (v : VarName) : LEnv :=
  { e with locals := e.locals ++ [v] }

/-- `Env::get` (middle end): most recent insertion wins, like the
`im::HashMap` it models. -/
def LEnv.get (e : LEnv) (f : FunName) : Option FunType :=
  (e.funs.find? (fun p => p.1 == f)).map (·.2)

/-- Panics that can be reached inside the lowerer (`panic!`, `.expect`
and slice indexing in `lower_expr_kont`). -/
inductive LPanic where
  | funNotInEnv
  | notLocal
  | indexOutOfBounds
deriving DecidableEq, Repr

/-- Rust slice indexing `xs[i]` (panics when out of bounds). -/
def listIndex {α : Type} (xs : List α) (i : Nat) : Except LPanic α :=
  match xs.get? i with
  | some a => .ok a
  | none => .error .indexOutOfBounds

/-- Result of one lowering step: the produced `BlockBody` plus the
threaded mutable state (`self`, `env`, and the two output vectors). -/
abbrev LowRes :=
  Except LPanic (BlockBody × Lowerer × LEnv × List FunBlock × List BasicBlock)

/-- Allocation of the per-argument temporaries in the `Prim` arm of
`lower_expr_kont` (`self.vars.fresh(format!("{}_{}", prim, i))`). -/
def freshArgVars (l : Lowerer) (hint : String) (i : Nat) :
    Nat → List VarName × Lowerer
  | 0 => ([], l)
  | n + 1 =>
    let (v, vars) := l.vars.freshVar (hint ++ "_" ++ Nat.repr i)
    let (rest, l2) := freshArgVars { l with vars := vars } hint (i + 1) n
    (v :: rest, l2)

/-- The `itob_res` temporaries of `prim2_logical` (one per argument,
mirroring the `enumerate` over `args`). -/
def freshItobVars (l : Lowerer) : Nat → List VarName × Lowerer
  | 0 => ([], l)
  | n + 1 =>
    let (v, vars) := l.vars.freshVar "itob_res"
    let (rest, l2) := freshItobVars { l with vars := vars } n
    (v :: rest, l2)

/-- The body of the final operation of the `Prim` arm: given the
destination, the argument immediates and the continuation body, build
the `BlockBody` as the Rust `match prim` does.  Returns the updated
lowerer because `Not`/`And`/`Or` allocate extra temporaries. -/
def primBlock (l : Lowerer) (prim : Prim) (dest : VarName)
    (args_imm : List Immediate) (next : BlockBody) :
    Except LPanic (BlockBody × Lowerer) := do
  match prim with
  | .Add1 => do
    let a0 ← listIndex args_imm 0
    .ok (.Operation dest (.Prim2 .Add a0 (.Const 1)) next, l)
  | .Sub1 => do
    let a0 ← listIndex args_imm 0
    .ok (.Operation dest (.Prim2 .Sub a0 (.Const 1)) next, l)
  | .Add => do
    let a0 ← listIndex args_imm 0
    let a1 ← listIndex args_imm 1
    .ok (.Operation dest (.Prim2 .Add a0 a1) next, l)
  | .Sub => do
    let a0 ← listIndex args_imm 0
    let a1 ← listIndex args_imm 1
    .ok (.Operation dest (.Prim2 .Sub a0 a1) next, l)
  | .Mul => do
    let a0 ← listIndex args_imm 0
    let a1 ← listIndex args_imm 1
    .ok (.Operation dest (.Prim2 .Mul a0 a1) next, l)
  | .Not => do
    let a0 ← listIndex args_imm 0
    let (tmp, vars) := l.vars.freshVar "itob_res"
    .ok (.Operation tmp (.Prim1 .IntToBool a0)
      (.Operation dest
        (.Prim2 .BitXor (.Var tmp) (.Const 1)) next),
      { l with vars := vars })
  | .And => do
    let a0 ← listIndex args_imm 0
    let a1 ← listIndex args_imm 1
    let (tc, l2) := freshItobVars l args_imm.length
    let t0 ← listIndex tc 0
    let t1 ← listIndex tc 1
    .ok (.Operation t0 (.Prim1 .IntToBool a0)
      (.Operation t1 (.Prim1 .IntToBool a1)
        (.Operation dest (.Prim2 .BitAnd (.Var t0) (.Var t1)) next)), l2)
  | .Or => do
    let a0 ← listIndex args_imm 0
    let a1 ← listIndex args_imm 1
    let (tc, l2) := freshItobVars l args_imm.length
    let t0 ← listIndex tc 0
    let t1 ← listIndex tc 1
    .ok (.Operation t0 (.Prim1 .IntToBool a0)
      (.Operation t1 (.Prim1 .IntToBool a1)
        (.Operation dest (.Prim2 .BitOr (.Var t0) (.Var t1)) next)), l2)
  | .Lt => do
    let a0 ← listIndex args_imm 0
    let a1 ← listIndex args_imm 1
    .ok (.Operation dest (.Prim2 .Lt a0 a1) next, l)
  | .Le => do
    let a0 ← listIndex args_imm 0
    let a1 ← listIndex args_imm 1
    .ok (.Operation dest (.Prim2 .Le a0 a1) next, l)
  | .Gt => do
    let a0 ← listIndex args_imm 0
    let a1 ← listIndex args_imm 1
    .ok (.Operation dest (.Prim2 .Gt a0 a1) next, l)
  | .Ge => do
    let a0 ← listIndex args_imm 0
    let a1 ← listIndex args_imm 1
    .ok (.Operation dest (.Prim2 .Ge a0 a1) next, l)
  | .Eq => do
    let a0 ← listIndex args_imm 0
    let a1 ← listIndex args_imm 1
    .ok (.Operation dest (.Prim2 .Eq a0 a1) next, l)
  | .Neq => do
    let a0 ← listIndex args_imm 0
    let a1 ← listIndex args_imm 1
    .ok (.Operation dest (.Prim2 .Neq a0 a1) next, l)

/-- The first loop of the `FunDefs` arm: allocate each declaration's
tail `BlockName` and register it in the environment with the current
locals snapshot as captures. -/
def registerDecls (l : Lowerer) (env : LEnv) :
    List (FunName × List (VarName × SrcLoc) × BoundExpr × SrcLoc) →
    Lowerer × LEnv
  | [] => (l, env)
  | (name, _, _, _) :: rest =>
    let (bn, bgen) := l.blocks.freshBlock (name.hint ++ "_tail")
    registerDecls { l with blocks := bgen } (env.addLocalFun name bn) rest

/-- The parameter renaming in the `FunDefs` arm
(`params.iter().map(|p| self.vars.fresh(p.hint()))`). -/
def freshRenamedParams (l : Lowerer) :
    List VarName → List VarName × Lowerer
  | [] => ([], l)
  | p :: rest =>
    let (v, vars) := l.vars.freshVar p.hint
    let (tail, l2) := freshRenamedParams { l with vars := vars } rest
    (v :: tail, l2)

mutual
/-- `Lowerer::lower_expr_kont` from `src/middle_end.rs`.  The threaded
mutable state (`self`, `env`, the `funs` and `blocks` output vectors)
is passed and returned explicitly, in the order the Rust code mutates
it. -/
def lowerExprKont (l : Lowerer) (e : BoundExpr) (k : Continuation)
    (env : LEnv) (funs : List FunBlock) (blocks : List BasicBlock) :
    LowRes :=
  match e with
  | .Num n _ => .ok (k.invoke (.Const n), l, env, funs, blocks)
  | .Bool b _ =>
    .ok (k.invoke (.Const (if b then 1 else 0)), l, env, funs, blocks)
  | .Var v _ => .ok (k.invoke (.Var v), l, env, funs, blocks)
  | .Prim prim args _ => do
    let (args_var, l1) := freshArgVars l prim.display 0 args.length
    let args_imm := args_var.map Immediate.Var
    let (dest, next, l2) :=
      match k with
      | .Block res block => (res, block, l1)
      | .Return =>
        let (res, vars) := l1.vars.freshVar (prim.display ++ "_res")
        (res, Continuation.Return.invoke (.Var res),
          { l1 with vars := vars })
    let (block, l3) ← primBlock l2 prim dest args_imm next
    lowerArgsRev l3 args args_var block env funs blocks
  | .Let bindings body _ => do
    let env1 := bindings.foldl (fun acc b => acc.pushLocal b.1.1) env
    let (block, l1, env2, funs1, blocks1) ←
      lowerExprKont l body k env1 funs blocks
    let (block2, l2, funs2, blocks2) ←
      lowerBindingsRev l1 bindings env2 block funs1 blocks1
    .ok (block2, l2, env2, funs2, blocks2)
  | .If cond thn els _ => do
    let (cond_var, vars1) := l.vars.freshVar "cond"
    let (thn_label, bgen1) :=
      ({ l with vars := vars1 } : Lowerer).blocks.freshBlock "thn"
    let (els_label, bgen2) := bgen1.freshBlock "els"
    let l1 : Lowerer := { vars := vars1, funs := l.funs, blocks := bgen2 }
    let (cond_branch, l2, env1, funs1, blocks1) ←
      lowerExprKont l1 cond
        (.Block cond_var
          (.Terminator
            (.ConditionalBranch (.Var cond_var) thn_label els_label)))
        env funs blocks
    match k with
    | .Return => do
      let (thn_body, l3, env2, funs2, blocks2) ←
        lowerExprKont l2 thn .Return env1 funs1 blocks1
      let (els_body, l4, env3, funs3, blocks3) ←
        lowerExprKont l3 els .Return env2 funs2 blocks2
      .ok (.SubBlocks
        [.mk thn_label [] thn_body, .mk els_label [] els_body]
        cond_branch, l4, env3, funs3, blocks3)
    | .Block dest body => do
      let (thn_var, vars2) := l2.vars.freshVar "thn_res"
      let (els_var, vars3) := vars2.freshVar "els_res"
      let (join_label, bgen3) := l2.blocks.freshBlock "jn"
      let l3 : Lowerer := { vars := vars3, funs := l2.funs, blocks := bgen3 }
      let (thn_body, l4, env2, funs2, blocks2) ←
        lowerExprKont l3 thn
          (.Block thn_var
            (.Terminator (.Branch
              { target := join_label, args := [.Var thn_var] })))
          env1 funs1 blocks1
      let (els_body, l5, env3, funs3, blocks3) ←
        lowerExprKont l4 els
          (.Block els_var
            (.Terminator (.Branch
              { target := join_label, args := [.Var els_var] })))
          env2 funs2 blocks2
      .ok (.SubBlocks
        [.mk thn_label [] thn_body, .mk els_label [] els_body,
          .mk join_label [dest] body]
        cond_branch, l5, env3, funs3, blocks3)
  | .FunDefs decls body _ => do
    let (l1, env1) := registerDecls l env decls
    let (l2, funs1, blocks1) ← lowerDecls l1 decls env1 funs blocks
    lowerExprKont l2 body k env1 funs1 blocks1
  | .Call f args _ => do
    let (args_var, l1) := freshArgVars l f.hint 0 args.length
    match env.get f with
    | none => .error .funNotInEnv
    | some .Extern => do
      let (res, vars) := l1.vars.freshVar (f.hint ++ "_res")
      let l2 : Lowerer := { l1 with vars := vars }
      let block : BlockBody :=
        .Operation res (.Call f (args_var.map Immediate.Var))
          (k.invoke (.Var res))
      lowerArgsRev l2 args args_var block env funs blocks
    | some (.Local captured block_name) =>
      let argsC := (args_var ++ captured).map Immediate.Var
      match k with
      | .Return =>
        lowerArgsRev l1 args args_var
          (.Terminator (.Branch { target := block_name, args := argsC }))
          env funs blocks
      | .Block dest next =>
        lowerArgsRev l1 args args_var
          (.Operation dest (.Call f argsC) next) env funs blocks

/-- The `rev().fold` over argument expressions shared by the `Prim`
and `Call` arms: the last argument is lowered first, each wrapped in a
`Block` continuation binding its temporary around the accumulated
body. -/
def lowerArgsRev (l : Lowerer) (args : List BoundExpr)
    (vs : List VarName) (block : BlockBody) (env : LEnv)
    (funs : List FunBlock) (blocks : List BasicBlock) : LowRes :=
  match args, vs with
  | [], _ => .ok (block, l, env, funs, blocks)
  | _, [] => .ok (block, l, env, funs, blocks)
  | a :: args2, v :: vs2 => do
    let (inner, l1, env1, funs1, blocks1) ←
      lowerArgsRev l args2 vs2 block env funs blocks
    lowerExprKont l1 a (.Block v inner) env1 funs1 blocks1

/-- The `rev().fold` over `let` bindings: each right-hand side is
lowered under a fresh clone of `binding_env` (so environment mutations
made while lowering one right-hand side are not seen by another), with
the binding's variable as destination. -/
def lowerBindingsRev (l : Lowerer)
    (bs : List ((VarName × SrcLoc) × BoundExpr)) (bindEnv : LEnv)
    (block : BlockBody) (funs : List FunBlock)
    (blocks : List BasicBlock) :
    Except LPanic (BlockBody × Lowerer × List FunBlock × List BasicBlock) :=
  match bs with
  | [] => .ok (block, l, funs, blocks)
  | ((v, _), rhs) :: rest => do
    let (inner, l1, funs1, blocks1) ←
      lowerBindingsRev l rest bindEnv block funs blocks
    let (out, l2, _, funs2, blocks2) ←
      lowerExprKont l1 rhs (.Block v inner) bindEnv funs1 blocks1
    .ok (out, l2, funs2, blocks2)

/-- The second loop of the `FunDefs` arm: for each declaration, emit
its tail-callable `BasicBlock` (lowering the body under a clone of the
environment extended with the block parameters) and then the lifted
`FunBlock` with freshly renamed parameters and a freshly mangled
name. -/
def lowerDecls (l : Lowerer)
    (ds : List (FunName × List (VarName × SrcLoc) × BoundExpr × SrcLoc))
    (env : LEnv) (funs : List FunBlock) (blocks : List BasicBlock) :
    Except LPanic (Lowerer × List FunBlock × List BasicBlock) :=
  match ds with
  | [] => .ok (l, funs, blocks)
  | (name, params, dbody, _) :: rest => do
    let ps := params.map (·.1)
    match env.get name with
    | some (.Local captured label) => do
      let basic_block_params := ps ++ captured
      let bodyEnv :=
        basic_block_params.foldl (fun acc p => acc.pushLocal p) env
      let (body, l1, _, funs1, blocks1) ←
        lowerExprKont l dbody .Return bodyEnv funs blocks
      let blocks2 := blocks1 ++ [.mk label basic_block_params body]
      let (renamed, l2) := freshRenamedParams l1 ps
      let fb_params := renamed ++ captured
      let fb_args := fb_params.map Immediate.Var
      let (name2, fgen) := l2.funs.freshFun name.hint
      let l3 : Lowerer := { l2 with funs := fgen }
      let funs2 := funs1 ++
        [{ name := name2, params := fb_params,
           body := { target := label, args := fb_args } }]
      lowerDecls l3 rest env funs2 blocks2
    | _ => .error .notLocal
end

/-- `Lowerer::lower_prog` from `src/middle_end.rs`. -/
def lowerProg (l : Lowerer) (prog : BoundProg) :
    Except LPanic (Program × Lowerer) := do
  let env := LEnv.new
  let env1 := prog.externs.foldl (fun acc ext => acc.addExtern ext.name) env
  let externs : List Extern :=
    prog.externs.map (fun ext =>
      { name := ext.name, params := ext.params.map (·.1) })
  let (main_block_label, bgen) := l.blocks.freshBlock "main_tail"
  let l1 : Lowerer := { l with blocks := bgen }
  let env2 := env1.addLocalFun prog.name main_block_label
  let env3 := env2.pushLocal prog.param.1
  let (main_fun_block_arg, vars) := l1.vars.freshVar "x"
  let l2 : Lowerer := { l1 with vars := vars }
  let main_fun_block : FunBlock :=
    { name := prog.name, params := [main_fun_block_arg],
      body := { target := main_block_label,
                args := [.Var main_fun_block_arg] } }
  let funs := [main_fun_block]
  let blocks : List BasicBlock := []
  let (main_block_body, l3, _, funs1, blocks1) ←
    lowerExprKont l2 prog.body .Return env3 funs blocks
  let blocks2 := blocks1 ++
    [.mk main_block_label [prog.param.1] main_block_body]
  .ok ({ externs := externs, funs := funs1, blocks := blocks2 }, l3)

/- ---------------------------- interp.rs --------------------------- -/

/-- `Value` from `src/interp.rs` has the single variant `Int(i64)`;
modelled directly as `Int`. -/
abbrev Value := Int

/-- `InterpErr<Var, Fun>` from `src/interp.rs`, instantiated at the
bound identifiers (the instantiation used by both reference
interpreters on resolved programs). -/
inductive InterpErr where
  | Unimplemented
  | InvalidArg (s : String)
  | UnboundVar (v : VarName)
  | UnboundFun (f : FunName)
  | UnExpectedFun (f : FunName)
  | CallToConst (n : Int)
  | CallWrongArity (name : FunName) (expected got : Nat)
  | UnboundBlock (b : BlockName)
  | BrWrongArity (name : BlockName) (expected got : Nat)
deriving DecidableEq, Repr

/-- Failure of an interpreter run: a reported `InterpErr` or a Rust
panic (`assert!`, `unreachable!`, `unwrap`, or a `HashMap` index on a
missing key). -/
inductive IFail where
  | err (e : InterpErr)
  | panicked
deriving DecidableEq, Repr

/-- Two's-complement wraparound of 64-bit signed arithmetic (release
Rust `i64` addition/subtraction/multiplication). -/
def wrap64 (n : Int) : Int := (n + 2 ^ 63) % 2 ^ 64 - 2 ^ 63

mutual
/-- `DynValue` from the AST interpreter in `src/interp.rs`. -/
inductive DynValue where
  | Int (n : Int)
  | Closure (c : AClosure)

/-- `Closure` from the AST interpreter: captured environment, the
mutually recursive declaration group, and this closure's name. -/
inductive AClosure where
  | mk (env : List (AKey × DynValue))
      (decls : List (FunName × List VarName × BoundExpr))
      (name : FunName)

/-- `VarOrFun` from the AST interpreter. -/
inductive AKey where
  | Var (v : VarName)
  | Fun (f : FunName)
end

/-- Decidable equality of `AKey` (derived `PartialEq`). -/
def AKey.beq : AKey → AKey → Bool
  | .Var v, .Var w => v == w
  | .Fun f, .Fun g => f == g
  | _, _ => false

/-- AST interpreter environment `Env<Var, Fun>`
(`im::HashMap<VarOrFun, DynValue>`), as an association list. -/
abbrev AEnv := List (AKey × DynValue)

/-- `HashMap::insert` on the AST environment (replace semantics). -/
def AEnv.insert (m : AEnv) (k : AKey) (v : DynValue) : AEnv :=
  (k, v) :: m.filter (fun p => !(AKey.beq p.1 k))

/-- `HashMap::get` on the AST environment. -/
def AEnv.get (m : AEnv) (k : AKey) : Option DynValue :=
  (m.find? (fun p => AKey.beq p.1 k)).map (·.2)

/-- `HashMap::insert` on a declaration group keyed by `FunName`. -/
def declsInsert (m : List (FunName × List VarName × BoundExpr))
    (k : FunName) (v : List VarName × BoundExpr) :
    List (FunName × List VarName × BoundExpr) :=
  (k, v) :: m.filter (fun p => !(p.1 == k))

/-- `HashMap::get` on a declaration group. -/
def declsGet (m : List (FunName × List VarName × BoundExpr))
    (k : FunName) : Option (List VarName × BoundExpr) :=
  (m.find? (fun p => p.1 == k)).map (·.2)

/-- `Operator` from the AST interpreter. -/
inductive AOperator where
  | Prim (p : Prim)
  | Call (f : FunName)

/-- `Stack` (the defunctionalized continuation) from the AST
interpreter.  The `remaining` vectors are kept in source order; the
Rust code stores them reversed and pops from the back, which consumes
the same elements in the same order. -/
inductive AStack where
  | Return
  | Operation (operator : AOperator) (env : AEnv)
      (evaluated : List DynValue) (remaining : List BoundExpr)
      (stack : AStack)
  | Let (env : AEnv) (var : VarName)
      (remaining : List (VarName × BoundExpr)) (body : BoundExpr)
      (stack : AStack)
  | If (env : AEnv) (thn els : BoundExpr) (stack : AStack)

/-- `Redex` from the AST interpreter. -/
inductive ARedex where
  | Decending (expr : BoundExpr) (env : AEnv)
  | Ascending (dv : DynValue)

/-- `Machine` from the AST interpreter. -/
structure AMachine where
  redex : ARedex
  stack : AStack

/-- `Machine::run_call` from the AST interpreter. -/
def astRunCall (f : FunName) (args : List DynValue) (env : AEnv)
    (stack : AStack) : Except IFail AMachine := do
  match AEnv.get env (.Fun f) with
  | none => .error (.err (.UnboundFun f))
  | some (.Int n) => .error (.err (.CallToConst n))
  | some (.Closure (.mk clo_env decls name)) =>
    let env2 := decls.foldl
      (fun acc p =>
        AEnv.insert acc (.Fun p.1) (.Closure (.mk clo_env decls p.1)))
      clo_env
    match declsGet decls name with
    | none => .error .panicked
    | some (params, body) =>
      if args.length ≠ params.length then
        .error (.err (.CallWrongArity name params.length args.length))
      else
        let env3 := (params.zip args).foldl
          (fun acc p => AEnv.insert acc (.Var p.1) p.2) env2
        .ok { redex := .Decending body env3, stack := stack }

/-- `Machine::dive_operator` from the AST interpreter. -/
def astDiveOperator (operator : AOperator) (args : List BoundExpr)
    (env : AEnv) (stack : AStack) : Except IFail AMachine :=
  match args with
  | e :: rest =>
    .ok { redex := .Decending e env,
          stack := .Operation operator env [] rest stack }
  | [] =>
    match operator with
    | .Call f => astRunCall f [] env stack
    | .Prim _ => .error .panicked

/-- `Machine::dive_expr` from the AST interpreter. -/
def astDiveExpr (expr : BoundExpr) (env : AEnv) (stack : AStack) :
    Except IFail AMachine :=
  match expr with
  | .Num n _ => .ok { redex := .Ascending (.Int n), stack := stack }
  | .Bool b _ =>
    .ok { redex := .Ascending (.Int (if b then 1 else 0)), stack := stack }
  | .Var v _ =>
    match AEnv.get env (.Var v) with
    | none => .error (.err (.UnboundVar v))
    | some dv => .ok { redex := .Ascending dv, stack := stack }
  | .Prim p args _ => astDiveOperator (.Prim p) args env stack
  | .Let bindings body _ =>
    (match bindings with
    | ((v, _), rhs) :: rest =>
      .ok { redex := .Decending rhs env,
            stack := .Let env v (rest.map (fun b => (b.1.1, b.2))) body
              stack }
    | [] => .ok { redex := .Decending body env, stack := stack })
  | .If cond thn els _ =>
    .ok { redex := .Decending cond env, stack := .If env thn els stack }
  | .FunDefs decls body _ =>
    let declMap := decls.foldl
      (fun acc d => declsInsert acc d.1 (d.2.1.map (·.1), d.2.2.1)) []
    let env2 := declMap.foldl
      (fun acc p =>
        AEnv.insert acc (.Fun p.1) (.Closure (.mk env declMap p.1)))
      env
    .ok { redex := .Decending body env2, stack := stack }
  | .Call f args _ => astDiveOperator (.Call f) args env stack

/-- `Machine::run_prim1` from the AST interpreter. -/
def astRunPrim1 (prim_f : Int → Int) (args : List DynValue)
    (stack : AStack) : Except IFail AMachine :=
  match args with
  | [.Int n] => .ok { redex := .Ascending (.Int (prim_f n)), stack }
  | [.Closure (.mk _ _ name)] => .error (.err (.UnExpectedFun name))
  | _ => .error .panicked

/-- `Machine::run_prim2` from the AST interpreter. -/
def astRunPrim2 (prim_f : Int → Int → Int) (args : List DynValue)
    (stack : AStack) : Except IFail AMachine :=
  match args with
  | [.Int n, .Int m] =>
    .ok { redex := .Ascending (.Int (prim_f n m)), stack }
  | [.Closure (.mk _ _ name), _] => .error (.err (.UnExpectedFun name))
  | [_, .Closure (.mk _ _ name)] => .error (.err (.UnExpectedFun name))
  | _ => .error .panicked

/-- `Machine::run_kont` from the AST interpreter.  The arithmetic
closures use explicit 64-bit wraparound (release-mode Rust `i64`
semantics, as the specification's overflow note states). -/
def astRunKont (dv : DynValue) (stack : AStack) :
    Except IFail AMachine :=
  match stack with
  | .Return => .error .panicked
  | .Operation operator env evaluated remaining stack => do
    let evaluated := evaluated ++ [dv]
    match remaining with
    | e :: rest =>
      .ok { redex := .Decending e env,
            stack := .Operation operator env evaluated rest stack }
    | [] =>
      match operator with
      | .Prim p =>
        match p with
        | .Add1 => astRunPrim1 (fun n => wrap64 (n + 1)) evaluated stack
        | .Sub1 => astRunPrim1 (fun n => wrap64 (n - 1)) evaluated stack
        | .Not =>
          astRunPrim1 (fun n => if n = 0 then 1 else 0) evaluated stack
        | .Add =>
          astRunPrim2 (fun n m => wrap64 (n + m)) evaluated stack
        | .Sub =>
          astRunPrim2 (fun n m => wrap64 (n - m)) evaluated stack
        | .Mul =>
          astRunPrim2 (fun n m => wrap64 (n * m)) evaluated stack
        | .And =>
          astRunPrim2 (fun n m => if n ≠ 0 ∧ m ≠ 0 then 1 else 0)
            evaluated stack
        | .Or =>
          astRunPrim2 (fun n m => if n ≠ 0 ∨ m ≠ 0 then 1 else 0)
            evaluated stack
        | .Lt =>
          astRunPrim2 (fun n m => if n < m then 1 else 0) evaluated stack
        | .Le =>
          astRunPrim2 (fun n m => if n ≤ m then 1 else 0) evaluated stack
        | .Gt =>
          astRunPrim2 (fun n m => if n > m then 1 else 0) evaluated stack
        | .Ge =>
          astRunPrim2 (fun n m => if n ≥ m then 1 else 0) evaluated stack
        | .Eq =>
          astRunPrim2 (fun n m => if n = m then 1 else 0) evaluated stack
        | .Neq =>
          astRunPrim2 (fun n m => if n ≠ m then 1 else 0) evaluated stack
      | .Call f => astRunCall f evaluated env stack
  | .Let env var remaining body stack =>
    let env := AEnv.insert env (.Var var) dv
    (match remaining with
    | (var2, e) :: rest =>
      .ok { redex := .Decending e env,
            stack := .Let env var2 rest body stack }
    | [] => .ok { redex := .Decending body env, stack := stack })
  | .If env thn els stack =>
    match dv with
    | .Closure (.mk _ _ name) => .error (.err (.UnExpectedFun name))
    | .Int n =>
      if n ≠ 0 then .ok { redex := .Decending thn env, stack := stack }
      else .ok { redex := .Decending els env, stack := stack }

/-- One iteration of the `run_expr` loop: either the machine
terminates with a value (`Sum.inl`) or steps to a new machine. -/
def astStep (m : AMachine) : Except IFail (Sum DynValue AMachine) :=
  match m with
  | { redex := .Decending expr env, stack := stack } =>
    (astDiveExpr expr env stack).map .inr
  | { redex := .Ascending dv, stack := .Return } => .ok (.inl dv)
  | { redex := .Ascending dv, stack := stack } =>
    (astRunKont dv stack).map .inr

/-- The `run_expr` loop, driven by fuel; `none` means the fuel ran
out. -/
def astRunExpr : Nat → AMachine → Option (Except IFail DynValue)
  | 0, _ => none
  | fuel + 1, m =>
    match astStep m with
    | .error e => some (.error e)
    | .ok (.inl dv) => some (.ok dv)
    | .ok (.inr m2) => astRunExpr fuel m2

/-- `Machine::run_prog` from the AST interpreter, with the program
argument already parsed to an integer (the `InvalidArg` path of the
string parse is not modelled).  A nonempty extern list trips the
`assert!` and panics. -/
def astRunProg (fuel : Nat) (p : BoundProg) (arg : Int) :
    Option (Except IFail Value) :=
  match p.externs with
  | _ :: _ => some (.error .panicked)
  | [] =>
    let decls : List (FunName × List VarName × BoundExpr) :=
      [(p.name, [p.param.1], p.body)]
    let env : AEnv :=
      AEnv.insert
        (AEnv.insert [] (.Fun p.name) (.Closure (.mk [] decls p.name)))
        (.Var p.param.1) (.Int arg)
    match astRunExpr fuel
        ({ redex := .Decending p.body env, stack := .Return }) with
    | none => none
    | some (.error e) => some (.error e)
    | some (.ok (.Int n)) => some (.ok n)
    | some (.ok (.Closure (.mk _ _ name))) =>
      some (.error (.err (.UnExpectedFun name)))

/-- `Frame` from the SSA interpreter in `src/interp.rs`: a map from
variables to (stack position, value), as an association list with
replace-on-insert. -/
abbrev Frame := List (VarName × Nat × Value)

/-- `Frame::insert`: the position is the number of keys before the
insertion. -/
def Frame.insert (m : Frame) (var : VarName) (val : Value) : Frame :=
  let pos := m.length
  (var, pos, val) :: m.filter (fun p => !(p.1 == var))

/-- `Frame::get`. -/
def Frame.get (m : Frame) (var : VarName) : Option (Nat × Value) :=
  (m.find? (fun p => p.1 == var)).map (·.2)

/-- `Frame::chop`: retain only entries below the anchor position. -/
def Frame.chop (m : Frame) (anchor : Nat) : Frame :=
  m.filter (fun p => p.2.1 < anchor)

/-- `AnchorBlock` from the SSA interpreter. -/
structure AnchorBlock where
  anchor : Nat
  params : List VarName
  body : BlockBody

/-- `Interp` from the SSA interpreter: the current frame and saved
frames (`StackEnv`), the continuation stack, and the function/block
registries. -/
structure SsaInterp where
  cur : Frame
  frames : List Frame
  kont : List (VarName × BlockBody)
  funs : List (FunName × FunBlock)
  blocks : List (BlockName × AnchorBlock)

/-- `HashMap::insert` on the function registry. -/
def funsInsert (m : List (FunName × FunBlock)) (k : FunName)
    (v : FunBlock) : List (FunName × FunBlock) :=
  (k, v) :: m.filter (fun p => !(p.1 == k))

/-- `HashMap::insert` on the block registry. -/
def blocksInsert (m : List (BlockName × AnchorBlock)) (k : BlockName)
    (v : AnchorBlock) : List (BlockName × AnchorBlock) :=
  (k, v) :: m.filter (fun p => !(p.1 == k))

/-- `State` (the interpreter trampoline) from the SSA interpreter. -/
inductive SState where
  | Return (v : Value)
  | Operation (op : Operation) (dest : VarName) (next : BlockBody)
  | OpReturn (v : Value)
  | Call (f : FunName) (args : List Value)
  | Branch (br : Branch)
  | BlockBody (b : BlockBody)
  | Terminator (t : Terminator)

/-- `Interp::alloc`: insert into the current frame. -/
def SsaInterp.alloc (it : SsaInterp) (var : VarName) (val : Value) :
    SsaInterp :=
  { it with cur := it.cur.insert var val }

/-- `Interp::run_immediate`. -/
def SsaInterp.runImmediate (it : SsaInterp) (imm : Immediate) :
    Except IFail Value :=
  match imm with
  | .Var v =>
    match it.cur.get v with
    | none => .error (.err (.UnboundVar v))
    | some (_, val) => .ok val
  | .Const n => .ok n

/-- `Interp::run_call`: the `self.funs[fun]` index panics when the
function has no registered `FunBlock`. -/
def SsaInterp.runCall (it : SsaInterp) (f : FunName)
    (args : List Value) : Except IFail (SsaInterp × SState) :=
  match (it.funs.find? (fun p => p.1 == f)).map (·.2) with
  | none => .error .panicked
  | some fb =>
    let it2 := (fb.params.zip args).foldl
      (fun acc p => acc.alloc p.1 p.2) it
    .ok (it2, .Branch fb.body)

/-- `Interp::run_branch`. -/
def SsaInterp.runBranch (it : SsaInterp) (br : Branch) :
    Except IFail (SsaInterp × SState) := do
  let args ← br.args.mapM (fun imm => it.runImmediate imm)
  match (it.blocks.find? (fun p => p.1 == br.target)).map (·.2) with
  | none => .error .panicked
  | some ab =>
    let it2 := { it with cur := it.cur.chop ab.anchor }
    let it3 := (ab.params.zip args).foldl
      (fun acc p => acc.alloc p.1 p.2) it2
    .ok (it3, .BlockBody ab.body)

/-- `Interp::run_block_body`. -/
def SsaInterp.runBlockBody (it : SsaInterp) (b : BlockBody) :
    Except IFail (SsaInterp × SState) :=
  match b with
  | .Terminator t => .ok (it, .Terminator t)
  | .Operation dest op next => .ok (it, .Operation op dest next)
  | .SubBlocks blocks next =>
    let anchor := it.cur.length
    let it2 := { it with
      blocks := blocks.foldl
        (fun acc b =>
          blocksInsert acc b.label
            { anchor := anchor, params := b.params, body := b.body })
        it.blocks }
    .ok (it2, .BlockBody next)

/-- `Interp::run_terminator`. -/
def SsaInterp.runTerminator (it : SsaInterp) (t : Terminator) :
    Except IFail SState := do
  match t with
  | .Return imm => do
    let v ← it.runImmediate imm
    .ok (.Return v)
  | .Branch br => .ok (.Branch br)
  | .ConditionalBranch cond thn els => do
    let n ← it.runImmediate cond
    if n ≠ 0 then .ok (.Branch { target := thn, args := [] })
    else .ok (.Branch { target := els, args := [] })

/-- `Interp::run_operation`.  Arithmetic wraps at 64-bit signed;
bitwise operations use the two's-complement bitwise functions on `Int`
(exact for `i64`). -/
def SsaInterp.runOperation (it : SsaInterp) (op : Operation) :
    Except IFail SState := do
  match op with
  | .Immediate imm => do
    let v ← it.runImmediate imm
    .ok (.OpReturn v)
  | .Prim1 prim imm => do
    let n ← it.runImmediate imm
    let o :=
      match prim with
      | .BitNot => -n - 1
      | .IntToBool => if n ≠ 0 then 1 else 0
    .ok (.OpReturn o)
  | .Prim2 prim imm1 imm2 => do
    let n ← it.runImmediate imm1
    let m ← it.runImmediate imm2
    let o :=
      match prim with
      | .Add => wrap64 (n + m)
      | .Sub => wrap64 (n - m)
      | .Mul => wrap64 (n * m)
      | .BitAnd => Int.land n m
      | .BitOr => Int.lor n m
      | .BitXor => Int.xor n m
      | .Lt => if n < m then 1 else 0
      | .Le => if n ≤ m then 1 else 0
      | .Gt => if n > m then 1 else 0
      | .Ge => if n ≥ m then 1 else 0
      | .Eq => if n = m then 1 else 0
      | .Neq => if n ≠ m then 1 else 0
    .ok (.OpReturn o)
  | .Call f args => do
    let args2 ← args.mapM (fun imm => it.runImmediate imm)
    .ok (.Call f args2)

/-- One iteration of the `Interp::run` trampoline loop. -/
def ssaStep (it : SsaInterp) (st : SState) :
    Except IFail (Sum Value (SsaInterp × SState)) :=
  match st with
  | .Return val =>
    match it.kont with
    | [] => .ok (.inl val)
    | (dest, next) :: kont2 =>
      -- `self.stack.exit()` pops the saved frame (unwrap panics when
      -- there is none), then the destination is allocated.
      match it.frames with
      | [] => .error .panicked
      | g :: gs =>
        let it2 := { it with cur := g, frames := gs, kont := kont2 }
        .ok (.inr (it2.alloc dest val, .BlockBody next))
  | .OpReturn val =>
    match it.kont with
    | [] => .error .panicked
    | (dest, next) :: kont2 =>
      let it2 := { it with kont := kont2 }
      .ok (.inr (it2.alloc dest val, .BlockBody next))
  | .Operation op dest next =>
    let it2 := { it with kont := (dest, next) :: it.kont }
    (it2.runOperation op).map (fun st2 => .inr (it2, st2))
  | .Call f args =>
    -- `self.stack.enter()` saves the current frame.
    let it2 := { it with cur := [], frames := it.cur :: it.frames }
    (it2.runCall f args).map .inr
  | .Branch br => (it.runBranch br).map .inr
  | .BlockBody b => (it.runBlockBody b).map .inr
  | .Terminator t => (it.runTerminator t).map (fun st2 => .inr (it, st2))

/-- The `Interp::run` loop, driven by fuel. -/
def ssaRunLoop : Nat → SsaInterp → SState → Option (Except IFail Value)
  | 0, _, _ => none
  | fuel + 1, it, st =>
    match ssaStep it st with
    | .error e => some (.error e)
    | .ok (.inl v) => some (.ok v)
    | .ok (.inr (it2, st2)) => ssaRunLoop fuel it2 st2

/-- `Interp::run` (on a fresh `Interp::new`), with the argument
already parsed to an integer.  A nonempty extern list trips the
`assert!` and panics. -/
def ssaRun (fuel : Nat) (p : Program) (arg : Int) :
    Option (Except IFail Value) :=
  match p.externs with
  | _ :: _ => some (.error .panicked)
  | [] =>
    let it0 : SsaInterp :=
      { cur := [], frames := [], kont := [],
        funs := p.funs.foldl (fun acc f => funsInsert acc f.name f) [],
        blocks := p.blocks.foldl
          (fun acc b =>
            blocksInsert acc b.label
              { anchor := 0, params := b.params, body := b.body })
          [] }
    match it0.runCall (.Unmangled "entry") [arg] with
    | .error e => some (.error e)
    | .ok (it, st) => ssaRunLoop fuel it st

/- ----------------------------- asm.rs ----------------------------- -/

/-- `Reg` from `src/asm.rs`. -/
inductive Reg where
  | Rax | Rbx | Rdx | Rcx | Rsi | Rdi | Rsp | Rbp
  | R8 | R9 | R10 | R11 | R12 | R13 | R14 | R15
deriving DecidableEq, Repr

/-- `Reg8` from `src/asm.rs` (only `Al` is emitted). -/
inductive Reg8 where
  | Ah | Al | Ch | Cl | Dh | Dl | Bh | Bl
  | Spl | Bpl | Sil | Dil
  | R8b | R9b | R10b | R11b | R12b | R13b | R14b | R15b
deriving DecidableEq, Repr

/-- `ConditionCode` from `src/asm.rs`. -/
inductive ConditionCode where
  | E | NE | L | LE | G | GE | S | Z | NZ | O | NO
deriving DecidableEq, Repr

/-- `MemRef` from `src/asm.rs` (offset is an `i32`). -/
structure MemRef where
  reg : Reg
  offset : Int
deriving DecidableEq, Repr

/-- `Arg64` from `src/asm.rs`. -/
inductive Arg64 where
  | Reg (r : Reg)
  | Signed (n : Int)
  | Unsigned (n : Int)
  | Mem (m : MemRef)
deriving DecidableEq, Repr

/-- `Arg32` from `src/asm.rs`. -/
inductive Arg32 where
  | Reg (r : Reg)
  | Signed (n : Int)
  | Unsigned (n : Int)
  | Mem (m : MemRef)
deriving DecidableEq, Repr

/-- `Reg32` from `src/asm.rs`. -/
inductive Reg32 where
  | Reg (r : Reg)
  | Imm (n : Int)
deriving DecidableEq, Repr

/-- `MovArgs` from `src/asm.rs`. -/
inductive MovArgs where
  | ToReg (r : Reg) (a : Arg64)
  | ToMem (m : MemRef) (r : Reg32)
deriving DecidableEq, Repr

/-- `BinArgs` from `src/asm.rs`. -/
inductive BinArgs where
  | ToReg (r : Reg) (a : Arg32)
  | ToMem (m : MemRef) (r : Reg32)
deriving DecidableEq, Repr

/-- `Loc` from `src/asm.rs`. -/
inductive Loc where
  | Reg (r : Reg)
  | Mem (m : MemRef)
deriving DecidableEq, Repr

/-- `Instr` from `src/asm.rs`. -/
inductive Instr where
  | Mov (a : MovArgs)
  | Add (a : BinArgs)
  | Sub (a : BinArgs)
  | IMul (a : BinArgs)
  | And (a : BinArgs)
  | Or (a : BinArgs)
  | Xor (a : BinArgs)
  | Shr (a : BinArgs)
  | Sar (a : BinArgs)
  | Cmp (a : BinArgs)
  | Test (a : BinArgs)
  | Push (a : Arg32)
  | Pop (l : Loc)
  | Label (s : String)
  | Comment (s : String)
  | Section (s : String)
  | Global (s : String)
  | Extern (s : String)
  | Call (s : String)
  | Ret
  | Jmp (s : String)
  | CMovCC (cc : ConditionCode) (a : BinArgs)
  | JCC (cc : ConditionCode) (s : String)
  | SetCC (cc : ConditionCode) (r : Reg8)
deriving DecidableEq, Repr

/-- `Display for BlockName` (`hint#idx`), used for emitted labels. -/
def BlockName.display (b : BlockName) : String :=
  b.hint ++ "#" ++ Nat.repr b.idx

/-- `Display for FunName` (`hint@idx` when mangled, bare hint when
unmangled). -/
def FunName.display : FunName → String
  | .Mangled idx hint => hint ++ "@" ++ Nat.repr idx
  | .Unmangled hint => hint

/-- `load_signed` from `src/backend.rs`. -/
def load_signed (reg : Reg) (val : Int) : Instr :=
  .Mov (.ToReg reg (.Signed val))

/-- `load_mem` from `src/backend.rs`. -/
def load_mem (reg : Reg) (src : Int) : Instr :=
  .Mov (.ToReg reg (.Mem { reg := .Rsp, offset := -8 * src }))

/-- `store_mem` from `src/backend.rs`. -/
def store_mem (dst : Int) (reg : Reg) : Instr :=
  .Mov (.ToMem { reg := .Rsp, offset := -8 * dst } (.Reg reg))

/- --------------------------- backend.rs --------------------------- -/

/-- Panics reachable in the backend: the two `unimplemented!` arms and
the two lookup `expect`/`panic!` sites. -/
inductive EmitPanic where
  | externsUnsupported
  | callsUnsupported
  | varNotAllocated
  | noOffsetForBlock
deriving DecidableEq, Repr

/-- `Env` from `src/backend.rs`: the slot counter and the
variable/block offset maps. -/
structure BEnv where
  next : Int
  arena : List (VarName × Int)
  blocks : List (BlockName × Int)

/-- `Env::new` (backend). -/
def BEnv.new : BEnv := { next := 1, arena := [], blocks := [] }

/-- `Env::allocate`. -/
def BEnv.allocate (e : BEnv) (x : VarName) : Int × BEnv :=
  (e.next,
    { e with arena := (x, e.next) :: e.arena, next := e.next + 1 })

/-- `Env::lookup` (panics when the variable was never allocated). -/
def BEnv.lookup (e : BEnv) (x : VarName) : Except EmitPanic Int :=
  match (e.arena.find? (fun p => p.1 == x)).map (·.2) with
  | some loc => .ok loc
  | none => .error .varNotAllocated

/-- `env.blocks.insert` (replace semantics as for a `HashMap`). -/
def BEnv.insertBlock (e : BEnv) (b : BlockName) (base : Int) : BEnv :=
  { e with blocks := (b, base) :: e.blocks.filter (fun p => !(p.1 == b)) }

/-- `env.blocks.get` (the call sites panic on `None`). -/
def BEnv.getBlock (e : BEnv) (b : BlockName) : Except EmitPanic Int :=
  match (e.blocks.find? (fun p => p.1 == b)).map (·.2) with
  | some base => .ok base
  | none => .error .noOffsetForBlock

/-- `Emitter::emit_imm_reg`. -/
def emitImmReg (imm : Immediate) (reg : Reg) (env : BEnv) :
    Except EmitPanic (List Instr) :=
  match imm with
  | .Var v => do
    let src ← env.lookup v
    .ok [load_mem reg src]
  | .Const i => .ok [load_signed reg i]

/-- `Emitter::emit_cc`. -/
def emitCC (cc : ConditionCode) (ba : BinArgs) : List Instr :=
  [.Cmp ba, .Mov (.ToReg .Rax (.Signed 0)), .SetCC cc .Al]

/-- `Emitter::emit_operation`: compute the result into `rax` (using
`r10` as scratch), then allocate the destination slot and store. -/
def emitOperation (dest : VarName) (op : Operation) (env : BEnv) :
    Except EmitPanic (List Instr × BEnv) := do
  let head ←
    match op with
    | .Immediate imm => emitImmReg imm .Rax env
    | .Prim1 op1 imm => do
      let i1 ← emitImmReg imm .Rax env
      match op1 with
      | .BitNot =>
        .ok (i1 ++ [.Mov (.ToReg .R10 (.Signed (-1))),
          .Xor (.ToReg .Rax (.Reg .R10))])
      | .IntToBool =>
        .ok (i1 ++ [.Cmp (.ToReg .Rax (.Signed 0)),
          .Mov (.ToReg .Rax (.Signed 0)), .SetCC .NE .Al])
    | .Prim2 op2 imm1 imm2 => do
      let i1 ← emitImmReg imm1 .Rax env
      let i2 ← emitImmReg imm2 .R10 env
      let ba : BinArgs := .ToReg .Rax (.Reg .R10)
      let tail :=
        match op2 with
        | .Add => [Instr.Add ba]
        | .Sub => [Instr.Sub ba]
        | .Mul => [Instr.IMul ba]
        | .BitAnd => [Instr.And ba]
        | .BitOr => [Instr.Or ba]
        | .BitXor => [Instr.Xor ba]
        | .Lt => emitCC .L ba
        | .Gt => emitCC .G ba
        | .Le => emitCC .LE ba
        | .Ge => emitCC .GE ba
        | .Eq => emitCC .E ba
        | .Neq => emitCC .NE ba
      .ok (i1 ++ i2 ++ tail)
    | .Call _ _ => .error .callsUnsupported
  let (dst, env2) := env.allocate dest
  .ok (head ++ [store_mem dst .Rax], env2)

/-- The enumerated store loop of `Emitter::emit_branch`: load each
argument into `rax` and store it at the target base plus its index. -/
def emitBranchStores (env : BEnv) (base : Int) (i : Nat) :
    List Immediate → Except EmitPanic (List Instr)
  | [] => .ok []
  | arg :: rest => do
    let load ← emitImmReg arg .Rax env
    let tail ← emitBranchStores env base (i + 1) rest
    .ok (load ++ [store_mem (base + (i : Int)) .Rax] ++ tail)

/-- `Emitter::emit_branch`. -/
def emitBranch (br : Branch) (env : BEnv) :
    Except EmitPanic (List Instr) := do
  let base ← env.getBlock br.target
  let stores ← emitBranchStores env base 0 br.args
  .ok (stores ++ [.Jmp br.target.display])

/-- `Emitter::emit_terminator`. -/
def emitTerminator (t : Terminator) (env : BEnv) :
    Except EmitPanic (List Instr) := do
  match t with
  | .Return imm => do
    let load ← emitImmReg imm .Rax env
    .ok (load ++ [.Ret])
  | .Branch br => emitBranch br env
  | .ConditionalBranch cond thn els => do
    let load ← emitImmReg cond .Rax env
    .ok (load ++ [.Cmp (.ToReg .Rax (.Signed 0)),
      .JCC .NE thn.display, .Jmp els.display])

mutual
/-- `Emitter::emit_block_body`. -/
def emitBlockBody (b : BlockBody) (env : BEnv) :
    Except EmitPanic (List Instr × BEnv) :=
  match b with
  | .Terminator t => do
    let instrs ← emitTerminator t env
    .ok (instrs, env)
  | .Operation dest op next => do
    let (i1, env1) ← emitOperation dest op env
    let (i2, env2) ← emitBlockBody next env1
    .ok (i1 ++ i2, env2)
  | .SubBlocks blocks next => do
    let env1 := blocks.foldl
      (fun acc b => acc.insertBlock b.label acc.next) env
    let (i1, _) ← emitBlockBody next env1
    let i2 ← emitSubBlocksList blocks env1
    .ok (i1 ++ i2, env1)

/-- The trailing loop of the `SubBlocks` arm: each sibling block is
emitted with its own clone of the environment. -/
def emitSubBlocksList (bs : List BasicBlock) (env : BEnv) :
    Except EmitPanic (List Instr) :=
  match bs with
  | [] => .ok []
  | .mk label params body :: rest => do
    let env1 := params.foldl
      (fun acc p => (acc.allocate p).2) env
    let (ibody, _) ← emitBlockBody body env1
    let tail ← emitSubBlocksList rest env
    .ok ([Instr.Label label.display] ++ ibody ++ tail)
end

/-- `Emitter::emit_basic_block`. -/
def emitBasicBlock (b : BasicBlock) (env : BEnv) :
    Except EmitPanic (List Instr × BEnv) := do
  let env1 := b.params.foldl (fun acc p => (acc.allocate p).2) env
  let (body, env2) ← emitBlockBody b.body env1
  .ok ([Instr.Label b.label.display] ++ body, env2)

/-- `Emitter::emit_fun_block`. -/
def emitFunBlock (fb : FunBlock) (env : BEnv) :
    Except EmitPanic (List Instr) := do
  let base ← env.getBlock fb.body.target
  .ok ([Instr.Label fb.name.display, store_mem (base + 0) .Rdi,
    .Jmp fb.body.target.display])

/-- The loop emitting top-level basic blocks, each with a clone of the
environment (`emit_basic_block(block, &mut env.clone())`). -/
def emitBasicBlocks (bs : List BasicBlock) (env : BEnv) :
    Except EmitPanic (List Instr) :=
  match bs with
  | [] => .ok []
  | b :: rest => do
    let (i1, _) ← emitBasicBlock b env
    let i2 ← emitBasicBlocks rest env
    .ok (i1 ++ i2)

/-- The loop emitting `FunBlock`s. -/
def emitFunBlocks (fs : List FunBlock) (env : BEnv) :
    Except EmitPanic (List Instr) :=
  match fs with
  | [] => .ok []
  | f :: rest => do
    let i1 ← emitFunBlock f env
    let i2 ← emitFunBlocks rest env
    .ok (i1 ++ i2)

/-- `Emitter::emit_prog` from `src/backend.rs`.  Any extern reaches
`emit_extern`, which is `unimplemented!`. -/
def emitProg (p : Program) : Except EmitPanic (List Instr) := do
  let header : List Instr :=
    [.Section ".data", .Section ".text", .Global "entry"]
  match p.externs with
  | _ :: _ => .error .externsUnsupported
  | [] => do
    let env := BEnv.new
    let env1 := p.blocks.foldl
      (fun acc b => acc.insertBlock b.label acc.next) env
    let i1 ← emitBasicBlocks p.blocks env1
    let i2 ← emitFunBlocks p.funs env1
    .ok (header ++ i1 ++ i2)

/- ------------------- auxiliary observers and fixtures ------------------- -/

mutual
/-- All `Branch` terminators occurring in a block body, including
those inside nested `SubBlocks`. -/
def branchesInBody : BlockBody → List Branch
  | .Terminator (.Branch br) => [br]
  | .Terminator _ => []
  | .Operation _ _ next => branchesInBody next
  | .SubBlocks bs next => branchesInBlocks bs ++ branchesInBody next

/-- All `Branch` terminators in the bodies of a list of blocks. -/
def branchesInBlocks : List BasicBlock → List Branch
  | [] => []
  | .mk _ _ body :: rest => branchesInBody body ++ branchesInBlocks rest
end

mutual
/-- All `ConditionalBranch` targets occurring in a block body,
including those inside nested `SubBlocks`. -/
def condTargetsInBody : BlockBody → List BlockName
  | .Terminator (.ConditionalBranch _ thn els) => [thn, els]
  | .Terminator _ => []
  | .Operation _ _ next => condTargetsInBody next
  | .SubBlocks bs next =>
    condTargetsInBlocks bs ++ condTargetsInBody next

/-- All `ConditionalBranch` targets in the bodies of a list of
blocks. -/
def condTargetsInBlocks : List BasicBlock → List BlockName
  | [] => []
  | .mk _ _ body :: rest =>
    condTargetsInBody body ++ condTargetsInBlocks rest
end

mutual
/-- All basic blocks nested inside a block body (from `SubBlocks`,
recursively). -/
def blocksInBody : BlockBody → List BasicBlock
  | .Terminator _ => []
  | .Operation _ _ next => blocksInBody next
  | .SubBlocks bs next => bs ++ blocksInBlocks bs ++ blocksInBody next

/-- All basic blocks nested inside the bodies of a list of blocks. -/
def blocksInBlocks : List BasicBlock → List BasicBlock
  | [] => []
  | .mk _ _ body :: rest => blocksInBody body ++ blocksInBlocks rest
end

mutual
/-- All function names used by `Call` operations in a block body,
including inside nested `SubBlocks`. -/
def callFunsInBody : BlockBody → List FunName
  | .Terminator _ => []
  | .Operation _ (.Call f _) next => f :: callFunsInBody next
  | .Operation _ _ next => callFunsInBody next
  | .SubBlocks bs next => callFunsInBlocks bs ++ callFunsInBody next

/-- All `Call` function names in the bodies of a list of blocks. -/
def callFunsInBlocks : List BasicBlock → List FunName
  | [] => []
  | .mk _ _ body :: rest => callFunsInBody body ++ callFunsInBlocks rest
end

/-- Every basic block of an SSA program: the top-level ones and all
blocks nested in their bodies. -/
def progAllBlocks (P : Program) : List BasicBlock :=
  P.blocks ++ blocksInBlocks P.blocks

/-- Every `Branch` of an SSA program: the single branch of each
`FunBlock` and all branches in (nested) block bodies. -/
def progBranches (P : Program) : List Branch :=
  P.funs.map (·.body) ++ branchesInBlocks P.blocks

/-- Every `ConditionalBranch` target of an SSA program. -/
def progCondTargets (P : Program) : List BlockName :=
  condTargetsInBlocks P.blocks

/-- Every `Call` function name of an SSA program. -/
def progCallFuns (P : Program) : List FunName :=
  callFunsInBlocks P.blocks

/-- The parameter lists of all blocks of a program carrying a given
label. -/
def paramsOfLabel (P : Program) (bn : BlockName) : List (List VarName) :=
  ((progAllBlocks P).filter (fun b => b.label == bn)).map (·.params)

/-- The variables bound by the outermost `let` of a bound expression
(used to name a fixture's binding variables in theorem statements). -/
def letBindingVars : BoundExpr → List VarName
  | .Let bs _ _ => bs.map (·.1.1)
  | _ => []

/-- The index trace of a sequence of `fresh` calls on the variable
generator. -/
def freshVarIdxTrace (g : IdGen) : List String → List Nat
  | [] => []
  | h :: hs =>
    (g.freshVar h).1.idx :: freshVarIdxTrace (g.freshVar h).2 hs

/-- The index of a mangled function name. -/
def FunName.mangledIdx : FunName → Option Nat
  | .Mangled i _ => some i
  | .Unmangled _ => none

/-- The index trace of a sequence of `fresh` calls on the function
generator. -/
def freshFunIdxTrace (g : IdGen) : List String → List (Option Nat)
  | [] => []
  | h :: hs =>
    (g.freshFun h).1.mangledIdx :: freshFunIdxTrace (g.freshFun h).2 hs

/-- The index trace of a sequence of `fresh` calls on the block
generator. -/
def freshBlockIdxTrace (g : IdGen) : List String → List Nat
  | [] => []
  | h :: hs =>
    (g.freshBlock h).1.idx :: freshBlockIdxTrace (g.freshBlock h).2 hs

mutual
/-- Whether some `let`-expression anywhere in the expression has two
bindings with the same name (the condition `resolve_expr` reports as
`DuplicateVariable`). -/
def hasDupLet {V F : Type} [DecidableEq V] : Expr V F → Bool
  | .Num _ _ | .Bool _ _ | .Var _ _ => false
  | .Prim _ args _ => hasDupLetList args
  | .Let bs body _ =>
    !(decide (bs.map (·.1.1)).Nodup) || hasDupLetBindings bs ||
      hasDupLet body
  | .If c t e _ => hasDupLet c || hasDupLet t || hasDupLet e
  | .FunDefs ds body _ => hasDupLetDecls ds || hasDupLet body
  | .Call _ args _ => hasDupLetList args

/-- `hasDupLet` over a list of expressions. -/
def hasDupLetList {V F : Type} [DecidableEq V] : List (Expr V F) → Bool
  | [] => false
  | e :: rest => hasDupLet e || hasDupLetList rest

/-- `hasDupLet` over the right-hand sides of a binding list. -/
def hasDupLetBindings {V F : Type} [DecidableEq V] :
    List ((V × SrcLoc) × Expr V F) → Bool
  | [] => false
  | (_, rhs) :: rest => hasDupLet rhs || hasDupLetBindings rest

/-- `hasDupLet` over the bodies of a declaration list. -/
def hasDupLetDecls {V F : Type} [DecidableEq V] :
    List (F × List (V × SrcLoc) × Expr V F × SrcLoc) → Bool
  | [] => false
  | (_, _, body, _) :: rest => hasDupLet body || hasDupLetDecls rest
end

/-- A fixture source location. -/
def loc0 : SrcLoc := { start_ix := 0, end_ix := 0 }

/-- Fixture for the branch-arity invariant: the bound program
`def entry(x): let a = (if true: 1 else: 2) in a`, whose lowering
exercises the `If` join point (a block with one parameter targeted by
two `Branch`es) and a `ConditionalBranch`. -/
def C5Bound : BoundProg :=
  { externs := [], name := .Unmangled "entry",
    param := ({ idx := 0, hint := "x" }, loc0),
    body := .Let
      [(({ idx := 1, hint := "a" }, loc0),
        .If (.Bool true loc0) (.Num 1 loc0) (.Num 2 loc0) loc0)]
      (.Var { idx := 1, hint := "a" } loc0) loc0,
    loc := loc0 }

/-- The result of lowering the branch-arity fixture (with an unreached
default on failure). -/
def C5LowOut : Program × Lowerer :=
  match lowerProg (Lowerer.fromResolver Resolver.new) C5Bound with
  | .ok x => x
  | .error _ => ({ externs := [], funs := [], blocks := [] },
      Lowerer.fromResolver Resolver.new)

/-- Fixture: the surface program
`def main(x): def f(a): a in add1(f(x))` — a local function called in
non-tail position. -/
def C1Surf : SurfProg :=
  { externs := [], name := "main", param := ("x", loc0),
    body := .FunDefs [("f", [("a", loc0)], .Var "a" loc0, loc0)]
      (.Prim .Add1 [.Call "f" [.Var "x" loc0] loc0] loc0) loc0,
    loc := loc0 }

/-- Fixture: the surface program
`def main(x): let a = (def f(p): 1 in 0), b = 2 in a` — a local
function defined inside the first binding of a two-binding `let`. -/
def C4Surf : SurfProg :=
  { externs := [], name := "main", param := ("x", loc0),
    body := .Let
      [(("a", loc0),
        .FunDefs [("f", [("p", loc0)], .Num 1 loc0, loc0)]
          (.Num 0 loc0) loc0),
       (("b", loc0), .Num 2 loc0)]
      (.Var "a" loc0) loc0,
    loc := loc0 }

/-- Run the resolver on a surface fixture, with an (unreached) default
on failure. -/
def resolvePipeline (p : SurfProg) : BoundProg × Resolver :=
  match resolveProg Resolver.new p with
  | .ok x => x
  | .error _ =>
    ({ externs := [], name := .Unmangled "entry",
       param := ({ idx := 0, hint := "" }, loc0), body := .Num 0 loc0,
       loc := loc0 }, Resolver.new)

/-- Run the lowerer on a resolved fixture, with an (unreached) default
on failure. -/
def lowerPipeline (p : SurfProg) : Program :=
  match lowerProg (Lowerer.fromResolver (resolvePipeline p).2)
      (resolvePipeline p).1 with
  | .ok x => x.1
  | .error _ => { externs := [], funs := [], blocks := [] }

/-- The bound fixture for the non-tail-call program. -/
def C1Bound : BoundProg := (resolvePipeline C1Surf).1

/-- The SSA fixture for the non-tail-call program. -/
def C1Ssa : Program := lowerPipeline C1Surf

/-- The bound fixture for the sibling-capture program. -/
def C4Bound : BoundProg := (resolvePipeline C4Surf).1

/-- The SSA fixture for the sibling-capture program. -/
def C4Ssa : Program := lowerPipeline C4Surf

/-- Fixture: a data-model-conformant SSA program with one extern. -/
def C2ExternSsa : Program :=
  { externs := [{ name := .Unmangled "print",
                  params := [{ idx := 0, hint := "a" }] }],
    funs := [{ name := .Unmangled "entry",
               params := [{ idx := 1, hint := "x" }],
               body := { target := { idx := 0, hint := "main_tail" },
                         args := [.Var { idx := 1, hint := "x" }] } }],
    blocks := [.mk { idx := 0, hint := "main_tail" }
      [{ idx := 2, hint := "x" }]
      (.Terminator (.Return (.Var { idx := 2, hint := "x" })))] }

/-- Fixture: a data-model-conformant SSA program with a `Call`
operation whose arity matches its lifted target. -/
def C2CallSsa : Program :=
  { externs := [],
    funs := [{ name := .Unmangled "entry",
               params := [{ idx := 0, hint := "x" }],
               body := { target := { idx := 0, hint := "main_tail" },
                         args := [.Var { idx := 0, hint := "x" }] } },
             { name := .Mangled 0 "f",
               params := [{ idx := 1, hint := "a" }],
               body := { target := { idx := 1, hint := "f_tail" },
                         args := [.Var { idx := 1, hint := "a" }] } }],
    blocks := [.mk { idx := 1, hint := "f_tail" }
      [{ idx := 2, hint := "a" }]
      (.Terminator (.Return (.Var { idx := 2, hint := "a" }))),
      .mk { idx := 0, hint := "main_tail" }
      [{ idx := 3, hint := "x" }]
      (.Operation { idx := 4, hint := "r" }
        (.Call (.Mangled 0 "f") [.Var { idx := 3, hint := "x" }])
        (.Terminator (.Return (.Var { idx := 4, hint := "r" }))))] }

/- --------------- well-resolvedness and SSA branch invariants --------------- -/

/-- Function-arity context: what resolution guarantees about the
functions in scope (most recent binding first, like the lowering
environment). -/
abbrev Gamma := List (FunName × Nat)

/-- Lookup in a `Gamma` (most recent binding wins). -/
def gLookup (g : Gamma) (f : FunName) : Option Nat :=
  (g.find? (fun p => p.1 == f)).map (·.2)

/-- Extend a `Gamma` with the declarations of a `FunDefs` group, in
registration order (so a later declaration shadows an earlier one with
the same name, as in the lowering environment). -/
def pushDecls (g : Gamma)
    (ds : List (FunName × List (VarName × SrcLoc) × BoundExpr × SrcLoc)) :
    Gamma :=
  ds.foldl (fun acc d => (d.1, d.2.1.length) :: acc) g

/-- Well-resolvedness of a bound expression relative to a
function-arity context: every call hits a bound function with matching
arity, declaration groups have distinct names, and declaration names
are globally fresh (resolution introduces freshly mangled names, so a
group never redeclares a name already in scope). -/
inductive WellScoped : Gamma → BoundExpr → Prop where
  | Num (g : Gamma) (n : Int) (loc : SrcLoc) : WellScoped g (.Num n loc)
  | Bool (g : Gamma) (b : Bool) (loc : SrcLoc) :
      WellScoped g (.Bool b loc)
  | Var (g : Gamma) (v : VarName) (loc : SrcLoc) :
      WellScoped g (.Var v loc)
  | Prim (g : Gamma) (p : Prim) (args : List BoundExpr) (loc : SrcLoc)
      (hargs : ∀ a ∈ args, WellScoped g a) :
      WellScoped g (.Prim p args loc)
  | Let (g : Gamma) (bs : List ((VarName × SrcLoc) × BoundExpr))
      (body : BoundExpr) (loc : SrcLoc)
      (hbs : ∀ b ∈ bs, WellScoped g b.2) (hbody : WellScoped g body) :
      WellScoped g (.Let bs body loc)
  | If (g : Gamma) (c t e : BoundExpr) (loc : SrcLoc)
      (hc : WellScoped g c) (ht : WellScoped g t)
      (he : WellScoped g e) : WellScoped g (.If c t e loc)
  | FunDefs (g : Gamma)
      (ds : List (FunName × List (VarName × SrcLoc) × BoundExpr × SrcLoc))
      (body : BoundExpr) (loc : SrcLoc)
      (hnodup : (ds.map (·.1)).Nodup)
      (hfresh : ∀ d ∈ ds, gLookup g d.1 = none)
      (hds : ∀ d ∈ ds, WellScoped (pushDecls g ds) d.2.2.1)
      (hbody : WellScoped (pushDecls g ds) body) :
      WellScoped g (.FunDefs ds body loc)
  | Call (g : Gamma) (f : FunName) (args : List BoundExpr)
      (loc : SrcLoc) (hf : gLookup g f = some args.length)
      (hargs : ∀ a ∈ args, WellScoped g a) :
      WellScoped g (.Call f args loc)

/-- The arity context of a whole bound program: the entry (arity 1)
shadowing the externs, mirroring the registration order of
`lower_prog`. -/
def progGamma (p : BoundProg) : Gamma :=
  (p.name, 1) ::
    p.externs.foldl (fun acc e => (e.name, e.params.length) :: acc) []

/-- A well-resolved bound program: its body is well-scoped in its
arity context. -/
def WellScopedProg (p : BoundProg) : Prop :=
  WellScoped (progGamma p) p.body

/-- Block-arity table: the parameter count promised for each block
label. -/
abbrev BTable := List (BlockName × Nat)

/-- Lookup in a block-arity table. -/
def sLookup (S : BTable) (bn : BlockName) : Option Nat :=
  (S.find? (fun p => p.1 == bn)).map (·.2)

/-- Table extension: every recorded label keeps its recorded arity. -/
def SExt (S S2 : BTable) : Prop :=
  ∀ bn n, sLookup S bn = some n → sLookup S2 bn = some n

/-- All labels in the table have been allocated below the given block
counter. -/
def SFresh (S : BTable) (c : Nat) : Prop :=
  ∀ p ∈ S, (p.1 : BlockName).idx < c

/-- Arity-consistency of a terminator with the table. -/
def TermOk (S : BTable) : Terminator → Prop
  | .Return _ => True
  | .Branch br => sLookup S br.target = some br.args.length
  | .ConditionalBranch _ thn els =>
    sLookup S thn = some 0 ∧ sLookup S els = some 0

mutual
/-- Arity-consistency of a block body: every branch in it is
consistent with the table and every nested block is recorded with its
parameter count. -/
def BodyOk (S : BTable) : BlockBody → Prop
  | .Terminator t => TermOk S t
  | .Operation _ _ next => BodyOk S next
  | .SubBlocks bs next => BlocksOkL S bs ∧ BodyOk S next

/-- Arity-consistency of a list of blocks. -/
def BlocksOkL (S : BTable) : List BasicBlock → Prop
  | [] => True
  | .mk label params body :: rest =>
    (sLookup S label = some params.length ∧ BodyOk S body) ∧
      BlocksOkL S rest
end

/-- Arity-consistency of a continuation: its embedded body (if any)
is consistent. -/
def KOk (S : BTable) : Continuation → Prop
  | .Return => True
  | .Block _ body => BodyOk S body

/-- The lowering environment is consistent with the arity context and
the table: every `Local` entry that the context can still name
promises a block whose recorded parameter count is the declared arity
plus the capture count. -/
def EnvOk (g : Gamma) (S : BTable) (env : LEnv) : Prop :=
  ∀ f ar c bn, gLookup g f = some ar →
    LEnv.get env f = some (.Local c bn) →
    sLookup S bn = some (ar + c.length)

/-- Every emitted `FunBlock`'s branch is consistent with the table. -/
def FunsOk (S : BTable) (fs : List FunBlock) : Prop :=
  ∀ fb ∈ fs, sLookup S fb.body.target = some fb.body.args.length

/-- Every emitted top-level block is recorded and consistent. -/
def BlocksOk (S : BTable) (bs : List BasicBlock) : Prop :=
  ∀ b ∈ bs, sLookup S b.label = some b.params.length ∧ BodyOk S b.body

/-- The full invariant carried through the lowering functions. -/
def LowInv (g : Gamma) (S : BTable) (st : Lowerer) (env : LEnv)
    (funs : List FunBlock) (blocks : List BasicBlock) : Prop :=
  EnvOk g S env ∧ FunsOk S funs ∧ BlocksOk S blocks ∧
    SFresh S st.blocks.count

/-- The table entries created by registering a declaration group:
consecutive block indices from the given counter, each promising the
declaration's parameter count plus the size of the locals snapshot. -/
def declTable (c locN : Nat) :
    List (FunName × List (VarName × SrcLoc) × BoundExpr × SrcLoc) →
    BTable
  | [] => []
  | d :: rest =>
    ({ idx := c, hint := d.1.hint ++ "_tail" }, d.2.1.length + locN) ::
      declTable (c + 1) locN rest

/-- The names of the functions declared by a `FunDefs` in the first
binding's right-hand side of an outermost `let`. -/
def firstLetRhsDeclNames : BoundExpr → List FunName
  | .Let (((_, _), .FunDefs ds _ _) :: _) _ _ => ds.map (·.1)
  | _ => []

/-- The emitted-blocks component of a lowering result. -/
def lowBlocksOut (r : LowRes) : Option (List BasicBlock) :=
  match r with
  | .ok (_, _, _, _, bs) => some bs
  | .error _ => none

/- ------------------------------ theorems ------------------------------ -/

/-- Monadic bind on an `Except.ok` reduces to an application (helper
for unfolding the emitter's `do` blocks). -/
theorem okBind {e a b : Type} (x : a) (f : a → Except e b) :
    (Except.ok (ε := e) x >>= f) = f x := rfl

/-- The index trace of successive variable freshes is the counter
range. -/
theorem freshVarIdxTrace_eq_range (g : IdGen) (hs : List String) :
    freshVarIdxTrace g hs = List.range' g.count hs.length := by
  induction hs generalizing g with
  | nil => simp [freshVarIdxTrace]
  | cons h t ih =>
    simp [freshVarIdxTrace, IdGen.freshVar, ih, List.range'_succ]

/-- The index trace of successive function freshes is the counter
range (all mangled). -/
theorem freshFunIdxTrace_eq_range (g : IdGen) (hs : List String) :
    freshFunIdxTrace g hs = (List.range' g.count hs.length).map some := by
  induction hs generalizing g with
  | nil => simp [freshFunIdxTrace]
  | cons h t ih =>
    simp [freshFunIdxTrace, IdGen.freshFun, ih, List.range'_succ,
      FunName.mangledIdx]

/-- The index trace of successive block freshes is the counter
range. -/
theorem freshBlockIdxTrace_eq_range (g : IdGen) (hs : List String) :
    freshBlockIdxTrace g hs = List.range' g.count hs.length := by
  induction hs generalizing g with
  | nil => simp [freshBlockIdxTrace]
  | cons h t ih =>
    simp [freshBlockIdxTrace, IdGen.freshBlock, ih, List.range'_succ]

/-- Claim C9 (confirmed): each identifier kind's generator produces
strictly increasing, never-repeating indices for any sequence of
`fresh` calls, and the resolver-to-lowerer handoff continues the
resolver's variable and function counters (the block counter starts
fresh, and the next fresh of each handed-off kind is exactly what the
resolver would have produced). -/
theorem C9_idgen_monotone_and_handoff (g : IdGen) (hs : List String)
    (r : Resolver) (h : String) :
    (freshVarIdxTrace g hs).Pairwise (· < ·) ∧
    (freshVarIdxTrace g hs).Nodup ∧
    (freshBlockIdxTrace g hs).Pairwise (· < ·) ∧
    freshFunIdxTrace g hs = (freshVarIdxTrace g hs).map some ∧
    (Lowerer.fromResolver r).vars.freshVar h = r.vars.freshVar h ∧
    (Lowerer.fromResolver r).funs.freshFun h = r.funs.freshFun h ∧
    (Lowerer.fromResolver r).blocks.count = 0 := by
  refine ⟨?_, ?_, ?_, ?_, rfl, rfl, rfl⟩
  · rw [freshVarIdxTrace_eq_range]
    exact List.pairwise_lt_range' _ _
  · rw [freshVarIdxTrace_eq_range]
    exact List.nodup_range' _ _
  · rw [freshBlockIdxTrace_eq_range]
    exact List.pairwise_lt_range' _ _
  · rw [freshFunIdxTrace_eq_range, freshVarIdxTrace_eq_range]

/-- Claim C8 (counterexample): two `VarName`s with equal indices but
different hints are not equal, because the derived `PartialEq`
compares the hint as well — refuting equality-iff-index-equality as
stated. -/
theorem C8_varname_eq_counterexample :
    ¬ (({ idx := 0, hint := "x" } : VarName) = { idx := 0, hint := "y" } ↔
      ({ idx := 0, hint := "x" } : VarName).idx =
        ({ idx := 0, hint := "y" } : VarName).idx) := by decide

/-- Claim C8 (amended): two `VarName` values are equal if and only if
both their numeric indices and their textual hints are equal. -/
theorem C8_varname_eq_iff_idx_hint (v w : VarName) :
    v = w ↔ v.idx = w.idx ∧ v.hint = w.hint := by
  cases v; cases w; simp

/-- Claim C2 (code bug): code generation is not total over
data-model-conformant SSA programs — a program with an extern reaches
the `unimplemented!` in `emit_extern`, and a program with a `Call`
operation reaches the `unimplemented!` in `emit_operation`. -/
theorem C2_backend_externs_and_calls_unimplemented :
    emitProg C2ExternSsa = .error .externsUnsupported ∧
    emitProg C2CallSsa = .error .callsUnsupported := by
  exact ⟨rfl, rfl⟩

/-- Claim C1 (code bug): `C1Surf` resolves successfully and the bound
AST interpreter returns 43 on input 42, but the SSA interpreter panics
on the lowered program, because the non-tail call to the local
function `f` names the original bound `FunName`, which is not the name
of any `FunBlock`. -/
theorem C1_nontail_local_call_ssa_interp_panics :
    (match resolveProg Resolver.new C1Surf with
      | .ok _ => true | .error _ => false) = true ∧
    astRunProg 100 C1Bound 42 = some (.ok 43) ∧
    ssaRun 100 C1Ssa 42 = some (.error .panicked) := by
  exact ⟨rfl, rfl, rfl⟩

/-- Claim C3 (code bug): in the lowering of `C1Surf`, the only `Call`
operation names the original bound `FunName` `f@0`, while the lifted
top-level `FunBlock` generated for the declaration is the fresh
mangled `f@1`; the call target is not among the program's `FunBlock`
names. -/
theorem C3_nontail_call_uses_original_not_lifted_name :
    progCallFuns C1Ssa = [.Mangled 0 "f"] ∧
    C1Ssa.funs.map (·.name) = [.Unmangled "entry", .Mangled 1 "f"] ∧
    (FunName.Mangled 0 "f") ∉ C1Ssa.funs.map (·.name) := by
  refine ⟨rfl, rfl, by decide⟩

/-- Claim C4 (counterexample): in the lowering of `C4Surf`, the
function `f` declared inside the first binding's right-hand side gets
a tail block whose parameters append the captured variables — and the
capture list contains `b%3`, the variable of the *sibling* binding,
refuting the claim that sibling variables are never captured. -/
theorem C4_sibling_captured_counterexample :
    letBindingVars C4Bound.body =
      [{ idx := 1, hint := "a" }, { idx := 3, hint := "b" }] ∧
    firstLetRhsDeclNames C4Bound.body = [.Mangled 0 "f"] ∧
    paramsOfLabel C4Ssa { idx := 1, hint := "f_tail" } =
      [[{ idx := 2, hint := "p" }, { idx := 0, hint := "x" },
        { idx := 1, hint := "a" }, { idx := 3, hint := "b" }]] ∧
    ({ idx := 3, hint := "b" } : VarName) ∈
      [{ idx := 2, hint := "p" }, { idx := 0, hint := "x" },
        ({ idx := 1, hint := "a" } : VarName),
        { idx := 3, hint := "b" }] := by
  refine ⟨rfl, rfl, rfl, by decide⟩

/-- Claim C4 (amended): each `let` right-hand side is lowered under
the locals snapshot taken after *all* of the let's binding names have
been pushed (and after the body has been lowered), so a function
defined inside one binding's right-hand side captures the sibling
bindings' variables as well: for any prior locals `L`, lowering
`let a = (def f(p): 1 in 0), b = 2 in a` emits a tail block for `f`
whose parameters are `p` followed by the capture list `L ++ [a, b]`,
which includes the sibling `b`. -/
theorem C4_let_rhs_env_includes_siblings (l : Lowerer)
    (F : List (FunName × FunType)) (L : List VarName) (a b p : VarName)
    (fn : FunName) (s1 s2 s3 s4 s5 s6 s7 : SrcLoc)
    (funs : List FunBlock) (blocks : List BasicBlock) :
    lowBlocksOut
      (lowerExprKont l
        (.Let
          [((a, s1),
            .FunDefs [(fn, [(p, s2)], .Num 1 s3, s4)] (.Num 0 s5) s6),
           ((b, s7), .Num 2 s3)]
          (.Var a s5) s6)
        .Return { funs := F, locals := L } funs blocks) =
      some (blocks ++
        [.mk { idx := l.blocks.count, hint := fn.hint ++ "_tail" }
          (p :: (L ++ [a, b]))
          (.Terminator (.Return (.Const 1)))]) := by
  simp only [lowerExprKont, lowerBindingsRev, lowerDecls, registerDecls,
    freshRenamedParams, LEnv.pushLocal, LEnv.addLocalFun, LEnv.get,
    Continuation.invoke, IdGen.freshBlock, IdGen.freshVar, IdGen.freshFun,
    okBind, List.foldl, List.find?, beq_self_eq_true, List.map]
  simp [List.append_assoc, Continuation.invoke, lowBlocksOut, okBind]

/-- Claim C7 (confirmed): for each comparison `Prim2`, after loading
the first operand into `rax` and the second into `r10`, the emitter
produces exactly `cmp rax, r10; mov rax, 0; set<cc> al` with the
matching condition code, followed by a store of `rax` to the freshly
allocated destination slot. -/
theorem C7_comparison_emission (dest : VarName) (a b : Immediate)
    (env : BEnv) (la lb : List Instr)
    (ha : emitImmReg a .Rax env = .ok la)
    (hb : emitImmReg b .R10 env = .ok lb) :
    (emitOperation dest (.Prim2 .Lt a b) env =
      .ok (la ++ lb ++
        [.Cmp (.ToReg .Rax (.Reg .R10)), .Mov (.ToReg .Rax (.Signed 0)),
          .SetCC .L .Al, store_mem env.next .Rax],
        (env.allocate dest).2)) ∧
    (emitOperation dest (.Prim2 .Le a b) env =
      .ok (la ++ lb ++
        [.Cmp (.ToReg .Rax (.Reg .R10)), .Mov (.ToReg .Rax (.Signed 0)),
          .SetCC .LE .Al, store_mem env.next .Rax],
        (env.allocate dest).2)) ∧
    (emitOperation dest (.Prim2 .Gt a b) env =
      .ok (la ++ lb ++
        [.Cmp (.ToReg .Rax (.Reg .R10)), .Mov (.ToReg .Rax (.Signed 0)),
          .SetCC .G .Al, store_mem env.next .Rax],
        (env.allocate dest).2)) ∧
    (emitOperation dest (.Prim2 .Ge a b) env =
      .ok (la ++ lb ++
        [.Cmp (.ToReg .Rax (.Reg .R10)), .Mov (.ToReg .Rax (.Signed 0)),
          .SetCC .GE .Al, store_mem env.next .Rax],
        (env.allocate dest).2)) ∧
    (emitOperation dest (.Prim2 .Eq a b) env =
      .ok (la ++ lb ++
        [.Cmp (.ToReg .Rax (.Reg .R10)), .Mov (.ToReg .Rax (.Signed 0)),
          .SetCC .E .Al, store_mem env.next .Rax],
        (env.allocate dest).2)) ∧
    (emitOperation dest (.Prim2 .Neq a b) env =
      .ok (la ++ lb ++
        [.Cmp (.ToReg .Rax (.Reg .R10)), .Mov (.ToReg .Rax (.Signed 0)),
          .SetCC .NE .Al, store_mem env.next .Rax],
        (env.allocate dest).2)) := by
  refine ⟨?_, ?_, ?_, ?_, ?_, ?_⟩ <;>
    (simp only [emitOperation, ha, hb, emitCC, BEnv.allocate, okBind]
     simp [List.append_assoc])

/-- Witness for C7 at a concrete destination, operands and
environment. -/
theorem C7_comparison_emission_witness :
    emitOperation { idx := 0, hint := "d" }
      (.Prim2 .Lt (.Const 7) (.Const 9)) BEnv.new =
    .ok ([load_signed .Rax 7] ++ [load_signed .R10 9] ++
      [.Cmp (.ToReg .Rax (.Reg .R10)), .Mov (.ToReg .Rax (.Signed 0)),
        .SetCC .L .Al, store_mem BEnv.new.next .Rax],
      (BEnv.new.allocate { idx := 0, hint := "d" }).2) :=
  (C7_comparison_emission { idx := 0, hint := "d" } (.Const 7) (.Const 9)
    BEnv.new [load_signed .Rax 7] [load_signed .R10 9] rfl rfl).1

/-- Monadic bind on an `Except.error` short-circuits (helper for
unfolding resolver `do` blocks). -/
theorem errBind {e a b : Type} (x : e) (f : a → Except e b) :
    (Except.error (α := a) x >>= f) = .error x := rfl

/-- Inserting a label preserves presence of any label in the resolver
scope. -/
theorem getEnvFun_insert_isSome (env : FEnv) (n k : String) (f : FunName)
    (ar : Nat) (h : (env.getEnvFun k).isSome) :
    ((env.insertLabel n f ar).getEnvFun k).isSome := by
  simp only [FEnv.getEnvFun, FEnv.insertLabel, List.find?]
  by_cases hk : n == k
  · simp [hk]
  · simp only [hk]
    exact h

/-- Successful extern processing preserves presence of any label in
the resolver scope. -/
theorem resolveExterns_preserves_label (l : List (ExtDecl String String))
    (r : Resolver) (env : FEnv) (bs : List (ExtDecl VarName FunName))
    (env2 : FEnv) (r2 : Resolver)
    (h : resolveExterns r env l = .ok (bs, env2, r2)) (k : String)
    (hk : (env.getEnvFun k).isSome) : ((env2.getEnvFun k).isSome) := by
  induction l generalizing r env bs with
  | nil =>
    simp only [resolveExterns] at h
    cases h
    exact hk
  | cons d rest ih =>
    simp only [resolveExterns] at h
    cases hd : env.getEnvFun d.name with
    | some ef => rw [hd] at h; exact absurd h (by simp)
    | none =>
      rw [hd] at h
      cases hp : resolveParams r d.params env with
      | error e => rw [hp] at h; exact absurd h (by simp [errBind])
      | ok tup =>
        rw [hp] at h
        obtain ⟨params2, envX, rX⟩ := tup
        simp only [okBind] at h
        cases hrest : resolveExterns rX
            (env.insertLabel d.name (.Unmangled d.name) params2.length)
            rest with
        | error e => rw [hrest] at h; exact absurd h (by simp [errBind])
        | ok tup2 =>
          rw [hrest] at h
          obtain ⟨bs2, env3, r3⟩ := tup2
          simp only [okBind] at h
          cases h
          exact ih rX _ bs2 hrest (getEnvFun_insert_isSome _ _ _ _ _ hk)

/-- Extern processing over an appended list fails exactly as the
second part does once the first part succeeds. -/
theorem resolveExterns_append_error (l1 l2 : List (ExtDecl String String))
    (r : Resolver) (env : FEnv) (bs : List (ExtDecl VarName FunName))
    (env2 : FEnv) (r2 : Resolver) (e : RErr)
    (h1 : resolveExterns r env l1 = .ok (bs, env2, r2))
    (h2 : resolveExterns r2 env2 l2 = .error e) :
    resolveExterns r env (l1 ++ l2) = .error e := by
  induction l1 generalizing r env bs with
  | nil =>
    simp only [resolveExterns] at h1
    cases h1
    simpa using h2
  | cons d rest ih =>
    simp only [resolveExterns] at h1 ⊢
    cases hd : env.getEnvFun d.name with
    | some ef => rw [hd] at h1; exact absurd h1 (by simp)
    | none =>
      rw [hd] at h1
      cases hp : resolveParams r d.params env with
      | error e2 => rw [hp] at h1; exact absurd h1 (by simp [errBind])
      | ok tup =>
        rw [hp] at h1
        obtain ⟨params2, envX, rX⟩ := tup
        simp only [okBind] at h1 ⊢
        cases hrest : resolveExterns rX
            (env.insertLabel d.name (.Unmangled d.name) params2.length)
            rest with
        | error e2 => rw [hrest] at h1; exact absurd h1 (by simp [errBind])
        | ok tup2 =>
          rw [hrest] at h1
          obtain ⟨bs2, env3, r3⟩ := tup2
          simp only [okBind] at h1
          cases h1
          simp only [List.append_eq]
          rw [ih rX _ bs2 hrest]
          rfl

/-- Claim C10 (confirmed): since `resolve_prog` registers the entry
under the program's name before processing externs, any extern whose
name equals the entry-point name makes resolution fail with
`DuplicateFunction` for that extern (provided the externs before it
processed without error). -/
theorem C10_extern_named_entry_duplicate_function (prog : SurfProg)
    (r0 : Resolver) (pre post : List (ExtDecl String String))
    (d : ExtDecl String String) (bs : List (ExtDecl VarName FunName))
    (env2 : FEnv) (r2 : Resolver)
    (hsplit : prog.externs = pre ++ d :: post)
    (hname : d.name = prog.name)
    (hpre : resolveExterns r0
      (FEnv.new.insertLabel prog.name (.Unmangled "entry") 1) pre =
      .ok (bs, env2, r2)) :
    resolveProg r0 prog =
      .error (.cerr (.DuplicateFunction d.name d.loc)) := by
  have hsome : ((FEnv.new.insertLabel prog.name
      (.Unmangled "entry") 1).getEnvFun prog.name).isSome := by
    simp [FEnv.getEnvFun, FEnv.insertLabel, FEnv.new]
  have hsome2 := resolveExterns_preserves_label pre r0 _ bs env2 r2 hpre
    prog.name hsome
  have herr : resolveExterns r2 env2 (d :: post) =
      .error (.cerr (.DuplicateFunction d.name d.loc)) := by
    simp only [resolveExterns]
    cases hd : env2.getEnvFun d.name with
    | some ef => rfl
    | none =>
      rw [hname] at hd; rw [hd] at hsome2; exact absurd hsome2 (by simp)
  have hall := resolveExterns_append_error pre (d :: post) r0 _ bs env2 r2
    _ hpre herr
  rw [← hsplit] at hall
  simp only [resolveProg, hall, errBind]

/-- Witness for C10: a program whose single extern is named like the
entry point fails with `DuplicateFunction` for it. -/
theorem C10_extern_named_entry_witness :
    resolveProg Resolver.new
      { externs := [{ name := "main", params := [], loc := loc0 }],
        name := "main", param := ("x", loc0), body := .Num 0 loc0,
        loc := loc0 } =
      .error (.cerr (.DuplicateFunction "main" loc0)) :=
  C10_extern_named_entry_duplicate_function _ Resolver.new [] []
    { name := "main", params := [], loc := loc0 } [] _ _ rfl rfl rfl


theorem findDupBinding_none (bs : List ((String × SrcLoc) × SurfExpr))
    (seen : List String) (h : findDupBinding seen bs = none) :
    (bs.map (·.1.1)).Nodup ∧ ∀ n ∈ bs.map (·.1.1), n ∉ seen := by
  induction bs generalizing seen with
  | nil => simp
  | cons b rest ih =>
    obtain ⟨⟨x, xloc⟩, rhs⟩ := b
    simp only [findDupBinding] at h
    by_cases hx : seen.contains x
    · rw [if_pos hx] at h; exact absurd h (by simp)
    · rw [if_neg hx] at h
      obtain ⟨h1, h2⟩ := ih (x :: seen) h
      refine ⟨?_, ?_⟩
      · simp only [List.map_cons, List.nodup_cons]
        exact ⟨fun hmem => (h2 _ hmem) (by simp), h1⟩
      · intro n hn
        simp only [List.map_cons, List.mem_cons] at hn
        rcases hn with rfl | hn
        · simpa using hx
        · intro hs
          exact (h2 n hn) (by simp [hs])

theorem findDupBinding_none_of_nodup
    (bs : List ((String × SrcLoc) × SurfExpr)) (seen : List String)
    (hnd : (bs.map (·.1.1)).Nodup)
    (hdisj : ∀ n ∈ bs.map (·.1.1), n ∉ seen) :
    findDupBinding seen bs = none := by
  induction bs generalizing seen with
  | nil => simp [findDupBinding]
  | cons b rest ih =>
    obtain ⟨⟨x, xloc⟩, rhs⟩ := b
    simp only [findDupBinding]
    have hx : ¬ seen.contains x := by simpa using hdisj x (by simp)
    rw [if_neg hx]
    simp only [List.map_cons, List.nodup_cons] at hnd
    apply ih (x :: seen) hnd.2
    intro n hn hmem
    rcases List.mem_cons.mp hmem with rfl | hs
    · exact hnd.1 hn
    · exact hdisj n (by simp [hn]) hs

theorem checkInsertDecls_no_dupvar
    (ds : List (String × List (String × SrcLoc) × SurfExpr × SrcLoc))
    (r : Resolver) (env : FEnv) (seen : List String) (x : String)
    (xloc : SrcLoc)
    (h : checkInsertDecls r env seen ds =
      .error (.cerr (.DuplicateVariable x xloc))) : False := by
  induction ds generalizing r env seen with
  | nil => simp [checkInsertDecls] at h
  | cons d rest ih =>
    obtain ⟨name, params, body, dloc⟩ := d
    simp only [checkInsertDecls] at h
    by_cases hn : seen.contains name
    · rw [if_pos hn] at h; simp at h
    · rw [if_neg hn] at h
      exact ih _ _ _ h

theorem resolveParams_err (r : Resolver) (ps : List (String × SrcLoc))
    (env : FEnv) (e : RErr) (h : resolveParams r ps env = .error e) :
    ∃ n nloc, e = .cerr (.DuplicateParameter n nloc) := by
  simp only [resolveParams] at h
  cases hd : findDupParam [] ps with
  | none => rw [hd] at h; simp at h
  | some p =>
    rw [hd] at h
    obtain ⟨n, nloc⟩ := p
    simp only [Except.error.injEq] at h
    exact ⟨n, nloc, h.symm⟩

mutual
theorem resolveExpr_dupvar (e : SurfExpr) (r : Resolver) (env : FEnv)
    (x : String) (xloc : SrcLoc)
    (h : resolveExpr r e env = .error (.cerr (.DuplicateVariable x xloc))) :
    hasDupLet e = true := by
  match e with
  | .Num n loc => simp [resolveExpr] at h
  | .Bool b loc => simp [resolveExpr] at h
  | .Var v loc =>
    simp only [resolveExpr] at h
    cases hv : env.getVarName v with
    | none => rw [hv] at h; simp at h
    | some w => rw [hv] at h; simp at h
  | .Prim p args loc =>
    simp only [resolveExpr] at h
    simp only [hasDupLet]
    cases ha : resolveExprList r args env with
    | error e2 =>
      rw [ha] at h
      simp only [errBind, Except.error.injEq] at h
      subst h
      exact resolveExprList_dupvar args r env x xloc ha
    | ok tup =>
      rw [ha] at h; obtain ⟨a2, r2⟩ := tup; simp [okBind] at h
  | .Let bs body loc =>
    simp only [resolveExpr] at h
    simp only [hasDupLet]
    cases hd : findDupBinding [] bs with
    | some p =>
      by_cases hnd : (bs.map (·.1.1)).Nodup
      · rw [findDupBinding_none_of_nodup bs [] hnd (by simp)] at hd
        cases hd
      · simp [hnd]
    | none =>
      rw [hd] at h
      cases hb : resolveBindings r bs env with
      | error e2 =>
        rw [hb] at h
        simp only [errBind, Except.error.injEq] at h
        subst h
        simp [resolveBindings_dupvar bs r env x xloc hb]
      | ok tup =>
        rw [hb] at h
        obtain ⟨bs2, env2, r2⟩ := tup
        simp only [okBind] at h
        cases hbody : resolveExpr r2 body env2 with
        | error e2 =>
          rw [hbody] at h
          simp only [errBind, Except.error.injEq] at h
          subst h
          simp [resolveExpr_dupvar body r2 env2 x xloc hbody]
        | ok tup2 =>
          rw [hbody] at h; obtain ⟨b2, r3⟩ := tup2; simp [okBind] at h
  | .If c t els loc =>
    simp only [resolveExpr] at h
    simp only [hasDupLet]
    cases hc : resolveExpr r c env with
    | error e2 =>
      rw [hc] at h
      simp only [errBind, Except.error.injEq] at h
      subst h
      simp [resolveExpr_dupvar c r env x xloc hc]
    | ok tup =>
      rw [hc] at h
      obtain ⟨c2, r2⟩ := tup
      simp only [okBind] at h
      cases ht : resolveExpr r2 t env with
      | error e2 =>
        rw [ht] at h
        simp only [errBind, Except.error.injEq] at h
        subst h
        simp [resolveExpr_dupvar t r2 env x xloc ht]
      | ok tup2 =>
        rw [ht] at h
        obtain ⟨t2, r3⟩ := tup2
        simp only [okBind] at h
        cases he : resolveExpr r3 els env with
        | error e2 =>
          rw [he] at h
          simp only [errBind, Except.error.injEq] at h
          subst h
          simp [resolveExpr_dupvar els r3 env x xloc he]
        | ok tup3 =>
          rw [he] at h; obtain ⟨e2, r4⟩ := tup3; simp [okBind] at h
  | .FunDefs ds body loc =>
    simp only [resolveExpr] at h
    simp only [hasDupLet]
    cases hcd : checkInsertDecls r env [] ds with
    | error e2 =>
      rw [hcd] at h
      simp only [errBind, Except.error.injEq] at h
      subst h
      exact absurd hcd
        (fun hq => checkInsertDecls_no_dupvar ds r env [] x xloc hq)
    | ok tup =>
      rw [hcd] at h
      obtain ⟨env2, r2⟩ := tup
      simp only [okBind] at h
      cases hds : resolveDecls r2 ds env2 with
      | error e2 =>
        rw [hds] at h
        simp only [errBind, Except.error.injEq] at h
        subst h
        simp [resolveDecls_dupvar ds r2 env2 x xloc hds]
      | ok tup2 =>
        rw [hds] at h
        obtain ⟨ds2, r3⟩ := tup2
        simp only [okBind] at h
        cases hbody : resolveExpr r3 body env2 with
        | error e2 =>
          rw [hbody] at h
          simp only [errBind, Except.error.injEq] at h
          subst h
          simp [resolveExpr_dupvar body r3 env2 x xloc hbody]
        | ok tup3 =>
          rw [hbody] at h; obtain ⟨b2, r4⟩ := tup3; simp [okBind] at h
  | .Call f args loc =>
    simp only [resolveExpr] at h
    simp only [hasDupLet]
    split at h
    · simp at h
    · split at h
      · simp at h
      · cases ha : resolveExprList r args env with
        | error e2 =>
          rw [ha] at h
          simp only [errBind, Except.error.injEq] at h
          subst h
          exact resolveExprList_dupvar args r env x xloc ha
        | ok tup =>
          rw [ha] at h; obtain ⟨a2, r2⟩ := tup; simp [okBind] at h

theorem resolveExprList_dupvar (es : List SurfExpr) (r : Resolver)
    (env : FEnv) (x : String) (xloc : SrcLoc)
    (h : resolveExprList r es env =
      .error (.cerr (.DuplicateVariable x xloc))) :
    hasDupLetList es = true := by
  match es with
  | [] => simp [resolveExprList] at h
  | e :: rest =>
    simp only [resolveExprList] at h
    simp only [hasDupLetList]
    cases he : resolveExpr r e env with
    | error e2 =>
      rw [he] at h
      simp only [errBind, Except.error.injEq] at h
      subst h
      simp [resolveExpr_dupvar e r env x xloc he]
    | ok tup =>
      rw [he] at h
      obtain ⟨e2, r2⟩ := tup
      simp only [okBind] at h
      cases hrest : resolveExprList r2 rest env with
      | error e3 =>
        rw [hrest] at h
        simp only [errBind, Except.error.injEq] at h
        subst h
        simp [resolveExprList_dupvar rest r2 env x xloc hrest]
      | ok tup2 =>
        rw [hrest] at h; obtain ⟨rest2, r3⟩ := tup2; simp [okBind] at h

theorem resolveBindings_dupvar (bs : List ((String × SrcLoc) × SurfExpr))
    (r : Resolver) (env : FEnv) (x : String) (xloc : SrcLoc)
    (h : resolveBindings r bs env =
      .error (.cerr (.DuplicateVariable x xloc))) :
    hasDupLetBindings bs = true := by
  match bs with
  | [] => simp [resolveBindings] at h
  | ((y, yloc), rhs) :: rest =>
    simp only [resolveBindings, IdGen.freshVar] at h
    simp only [hasDupLetBindings]
    cases hr : resolveExpr
        { r with vars := { count := r.vars.count + 1 } } rhs env with
    | error e2 =>
      rw [hr] at h
      simp only [errBind, Except.error.injEq] at h
      subst h
      simp [resolveExpr_dupvar rhs _ env x xloc hr]
    | ok tup =>
      rw [hr] at h
      obtain ⟨rhs2, r2⟩ := tup
      simp only [okBind] at h
      cases hrest : resolveBindings r2 rest
          (env.insertVar y { idx := r.vars.count, hint := y }) with
      | error e3 =>
        rw [hrest] at h
        simp only [errBind, Except.error.injEq] at h
        subst h
        simp [resolveBindings_dupvar rest r2 _ x xloc hrest]
      | ok tup2 =>
        rw [hrest] at h
        obtain ⟨rest2, env3, r3⟩ := tup2
        simp [okBind] at h

theorem resolveDecls_dupvar
    (ds : List (String × List (String × SrcLoc) × SurfExpr × SrcLoc))
    (r : Resolver) (env : FEnv) (x : String) (xloc : SrcLoc)
    (h : resolveDecls r ds env =
      .error (.cerr (.DuplicateVariable x xloc))) :
    hasDupLetDecls ds = true := by
  match ds with
  | [] => simp [resolveDecls] at h
  | (name, params, body, dloc) :: rest =>
    simp only [resolveDecls] at h
    simp only [hasDupLetDecls]
    cases hf : env.getEnvFun name with
    | none => rw [hf] at h; simp at h
    | some ef =>
      rw [hf] at h
      cases hp : resolveParams r params env with
      | error e2 =>
        rw [hp] at h
        simp only [errBind, Except.error.injEq] at h
        subst h
        obtain ⟨n, nloc, hn⟩ := resolveParams_err r params env _ hp
        simp at hn
      | ok tup =>
        rw [hp] at h
        obtain ⟨params2, env2, r2⟩ := tup
        simp only [okBind] at h
        cases hb : resolveExpr r2 body env2 with
        | error e2 =>
          rw [hb] at h
          simp only [errBind, Except.error.injEq] at h
          subst h
          simp [resolveExpr_dupvar body r2 env2 x xloc hb]
        | ok tup2 =>
          rw [hb] at h
          obtain ⟨body2, r3⟩ := tup2
          simp only [okBind] at h
          cases hrest : resolveDecls r3 rest env with
          | error e3 =>
            rw [hrest] at h
            simp only [errBind, Except.error.injEq] at h
            subst h
            simp [resolveDecls_dupvar rest r3 env x xloc hrest]
          | ok tup3 =>
            rw [hrest] at h; obtain ⟨rest2, r4⟩ := tup3; simp [okBind] at h
end


theorem resolveExterns_no_dupvar (l : List (ExtDecl String String))
    (r : Resolver) (env : FEnv) (x : String) (xloc : SrcLoc)
    (h : resolveExterns r env l =
      .error (.cerr (.DuplicateVariable x xloc))) : False := by
  induction l generalizing r env with
  | nil => simp [resolveExterns] at h
  | cons d rest ih =>
    simp only [resolveExterns] at h
    cases hd : env.getEnvFun d.name with
    | some ef => rw [hd] at h; simp at h
    | none =>
      rw [hd] at h
      cases hp : resolveParams r d.params env with
      | error e2 =>
        rw [hp] at h
        simp only [errBind, Except.error.injEq] at h
        subst h
        obtain ⟨n, nloc, hn⟩ := resolveParams_err r d.params env _ hp
        simp at hn
      | ok tup =>
        rw [hp] at h
        obtain ⟨params2, envX, rX⟩ := tup
        simp only [okBind] at h
        cases hrest : resolveExterns rX
            (env.insertLabel d.name (.Unmangled d.name) params2.length)
            rest with
        | error e2 =>
          rw [hrest] at h
          simp only [errBind, Except.error.injEq] at h
          subst h
          exact ih rX _ hrest
        | ok tup2 =>
          rw [hrest] at h
          obtain ⟨bs2, env3, r3⟩ := tup2
          simp [okBind] at h

theorem resolveProg_dupvar (p : SurfProg) (r : Resolver) (x : String)
    (xloc : SrcLoc)
    (h : resolveProg r p = .error (.cerr (.DuplicateVariable x xloc))) :
    hasDupLet p.body = true := by
  simp only [resolveProg] at h
  cases he : resolveExterns r
      (FEnv.new.insertLabel p.name (.Unmangled "entry") 1) p.externs with
  | error e2 =>
    rw [he] at h
    simp only [errBind, Except.error.injEq] at h
    subst h
    exact absurd he (fun hq => resolveExterns_no_dupvar _ _ _ x xloc hq)
  | ok tup =>
    rw [he] at h
    obtain ⟨externs2, env2, r2⟩ := tup
    simp only [okBind, IdGen.freshVar] at h
    cases hb : resolveExpr { r2 with vars := { count := r2.vars.count + 1 } }
        p.body (env2.insertVar p.param.1
          { idx := r2.vars.count, hint := p.param.1 }) with
    | error e2 =>
      rw [hb] at h
      simp only [errBind, Except.error.injEq] at h
      subst h
      exact resolveExpr_dupvar p.body _ _ x xloc hb
    | ok tup2 =>
      rw [hb] at h
      obtain ⟨body2, r4⟩ := tup2
      simp [okBind] at h

/-- Claim C6 (confirmed): (1) a `let`-expression whose bindings repeat
a name resolves to a `DuplicateVariable` error; (2) whenever program
resolution reports `DuplicateVariable`, some `let` in the program body
has two bindings with the same source name (the error arises nowhere
else); (3) shadowing across nestings is permitted: a single-binding
`let` over a name already bound in the enclosing scope resolves
successfully, and the occurrence in its body is bound to the freshly
introduced (innermost) `VarName`, regardless of the outer binding. -/
theorem C6_duplicate_variable_semantics :
    (∀ (r : Resolver) (env : FEnv)
       (bs : List ((String × SrcLoc) × SurfExpr)) (body : SurfExpr)
       (loc : SrcLoc), ¬ (bs.map (·.1.1)).Nodup →
       ∃ x xloc, resolveExpr r (.Let bs body loc) env =
         .error (.cerr (.DuplicateVariable x xloc))) ∧
    (∀ (r : Resolver) (p : SurfProg) (x : String) (xloc : SrcLoc),
       resolveProg r p = .error (.cerr (.DuplicateVariable x xloc)) →
       hasDupLet p.body = true) ∧
    (∀ (r : Resolver) (env : FEnv) (x : String) (n : Int)
       (s1 s2 s3 s4 : SrcLoc),
       resolveExpr r (.Let [((x, s1), .Num n s2)] (.Var x s3) s4) env =
         .ok (.Let [(({ idx := r.vars.count, hint := x }, s1),
                      .Num n s2)]
               (.Var { idx := r.vars.count, hint := x } s3) s4,
              { r with vars := { count := r.vars.count + 1 } })) := by
  refine ⟨?_, ?_, ?_⟩
  · intro r env bs body loc hnd
    cases hd : findDupBinding [] bs with
    | none => exact absurd (findDupBinding_none bs [] hd).1 hnd
    | some p =>
      obtain ⟨px, pl⟩ := p
      exact ⟨px, pl, by simp only [resolveExpr, hd]⟩
  · intro r p x xloc h
    exact resolveProg_dupvar p r x xloc h
  · intro r env x n s1 s2 s3 s4
    simp [resolveExpr, findDupBinding, resolveBindings, IdGen.freshVar,
      FEnv.insertVar, FEnv.getVarName, okBind, List.find?]

/-- Witness for C6: a concrete duplicate `let` fails with
`DuplicateVariable`, and a concrete shadowing `let` resolves with the
inner occurrence bound to the fresh variable even though the scope
already binds the name. -/
theorem C6_duplicate_variable_witness :
    (∃ x xloc,
      resolveExpr Resolver.new
        (.Let [(("x", loc0), .Num 1 loc0), (("x", loc0), .Num 2 loc0)]
          (.Var "x" loc0) loc0) FEnv.new =
        .error (.cerr (.DuplicateVariable x xloc))) ∧
    resolveExpr Resolver.new
      (.Let [(("x", loc0), .Num 1 loc0)] (.Var "x" loc0) loc0)
      (FEnv.new.insertVar "x" { idx := 99, hint := "x" }) =
      .ok (.Let [(({ idx := 0, hint := "x" }, loc0), .Num 1 loc0)]
            (.Var { idx := 0, hint := "x" } loc0) loc0,
           { vars := { count := 1 }, funs := { count := 0 } }) := by
  constructor
  · exact C6_duplicate_variable_semantics.1 Resolver.new FEnv.new _ _ loc0
      (by decide)
  · exact C6_duplicate_variable_semantics.2.2 Resolver.new _ "x" 1
      loc0 loc0 loc0 loc0



theorem sLookup_cons (k : BlockName) (n : Nat) (S : BTable)
    (t : BlockName) :
    sLookup ((k, n) :: S) t = if k = t then some n else sLookup S t := by
  simp only [sLookup, List.find?]
  by_cases h : k = t
  · subst h; simp
  · simp only [h, if_false]
    have : (k == t) = false := by simpa using h
    rw [this]

theorem sLookup_mem (S : BTable) (t : BlockName) (n : Nat)
    (h : sLookup S t = some n) : ∃ p ∈ S, p.1 = t := by
  simp only [sLookup, Option.map_eq_some'] at h
  obtain ⟨p, hp, _⟩ := h
  refine ⟨p, List.mem_of_find?_eq_some hp, ?_⟩
  have := List.find?_some hp
  simpa using this

theorem SExt_refl (S : BTable) : SExt S S := fun _ _ h => h

theorem SExt_trans (S1 S2 S3 : BTable) (h1 : SExt S1 S2)
    (h2 : SExt S2 S3) : SExt S1 S3 := fun bn n h => h2 bn n (h1 bn n h)

theorem SExt_cons_of_fresh (S : BTable) (c : Nat) (t : BlockName)
    (n : Nat) (hf : SFresh S c) (ht : c ≤ t.idx) :
    SExt S ((t, n) :: S) := by
  intro bn m h
  rw [sLookup_cons]
  by_cases he : t = bn
  · subst he
    obtain ⟨p, hp, hp2⟩ := sLookup_mem S t m h
    have := hf p hp
    rw [hp2] at this
    omega
  · rw [if_neg he]; exact h

theorem SFresh_mono (S : BTable) (c c2 : Nat) (h : SFresh S c)
    (hc : c ≤ c2) : SFresh S c2 := by
  intro p hp
  have := h p hp
  omega

theorem SFresh_cons (S : BTable) (c2 : Nat) (t : BlockName) (n : Nat)
    (h : SFresh S c2) (ht : t.idx < c2) : SFresh ((t, n) :: S) c2 := by
  intro p hp
  rcases List.mem_cons.mp hp with rfl | hp2
  · exact ht
  · exact h p hp2

theorem TermOk_mono (S S2 : BTable) (t : Terminator) (he : SExt S S2)
    (h : TermOk S t) : TermOk S2 t := by
  cases t with
  | Return imm => trivial
  | Branch br => exact he _ _ h
  | ConditionalBranch c thn els => exact ⟨he _ _ h.1, he _ _ h.2⟩

mutual
theorem BodyOk_mono (b : BlockBody) (S S2 : BTable) (he : SExt S S2)
    (h : BodyOk S b) : BodyOk S2 b := by
  match b with
  | .Terminator t => exact TermOk_mono S S2 t he h
  | .Operation _ _ next => exact BodyOk_mono next S S2 he h
  | .SubBlocks bs next =>
    exact ⟨BlocksOkL_mono bs S S2 he h.1, BodyOk_mono next S S2 he h.2⟩

theorem BlocksOkL_mono (bs : List BasicBlock) (S S2 : BTable)
    (he : SExt S S2) (h : BlocksOkL S bs) : BlocksOkL S2 bs := by
  match bs with
  | [] => trivial
  | .mk label params body :: rest =>
    exact ⟨⟨he _ _ h.1.1, BodyOk_mono body S S2 he h.1.2⟩,
      BlocksOkL_mono rest S S2 he h.2⟩
end

theorem KOk_mono (k : Continuation) (S S2 : BTable) (he : SExt S S2)
    (h : KOk S k) : KOk S2 k := by
  cases k with
  | Return => trivial
  | Block d body => exact BodyOk_mono body S S2 he h

theorem EnvOk_mono (g : Gamma) (S S2 : BTable) (env : LEnv)
    (he : SExt S S2) (h : EnvOk g S env) : EnvOk g S2 env := by
  intro f ar c bn h1 h2
  exact he _ _ (h f ar c bn h1 h2)

theorem FunsOk_mono (S S2 : BTable) (fs : List FunBlock) (he : SExt S S2)
    (h : FunsOk S fs) : FunsOk S2 fs := by
  intro fb hfb
  exact he _ _ (h fb hfb)

theorem BlocksOk_mono (S S2 : BTable) (bs : List BasicBlock)
    (he : SExt S S2) (h : BlocksOk S bs) : BlocksOk S2 bs := by
  intro b hb
  exact ⟨he _ _ (h b hb).1, BodyOk_mono b.body S S2 he (h b hb).2⟩

theorem FunsOk_append (S : BTable) (fs : List FunBlock) (fb : FunBlock)
    (h : FunsOk S fs)
    (h2 : sLookup S fb.body.target = some fb.body.args.length) :
    FunsOk S (fs ++ [fb]) := by
  intro f hf
  rcases List.mem_append.mp hf with hf | hf
  · exact h f hf
  · rcases List.mem_singleton.mp hf with rfl
    exact h2

theorem BlocksOk_append (S : BTable) (bs : List BasicBlock)
    (b : BasicBlock) (h : BlocksOk S bs)
    (h2 : sLookup S b.label = some b.params.length)
    (h3 : BodyOk S b.body) : BlocksOk S (bs ++ [b]) := by
  intro b2 hb2
  rcases List.mem_append.mp hb2 with hb2 | hb2
  · exact h b2 hb2
  · rcases List.mem_singleton.mp hb2 with rfl
    exact ⟨h2, h3⟩

theorem invoke_BodyOk (S : BTable) (k : Continuation) (imm : Immediate)
    (h : KOk S k) : BodyOk S (k.invoke imm) := by
  cases k with
  | Return => trivial
  | Block d body => exact h

theorem LEnv_get_pushLocal (env : LEnv) (v : VarName) (f : FunName) :
    LEnv.get (env.pushLocal v) f = LEnv.get env f := rfl

theorem EnvOk_pushLocal (g : Gamma) (S : BTable) (env : LEnv)
    (v : VarName) (h : EnvOk g S env) : EnvOk g S (env.pushLocal v) := by
  intro f ar c bn h1 h2
  rw [LEnv_get_pushLocal] at h2
  exact h f ar c bn h1 h2

theorem EnvOk_foldl_pushLocal (g : Gamma) (S : BTable) (env : LEnv)
    (vs : List VarName) (h : EnvOk g S env) :
    EnvOk g S (vs.foldl (fun acc p => acc.pushLocal p) env) := by
  induction vs generalizing env with
  | nil => exact h
  | cons v rest ih => exact ih _ (EnvOk_pushLocal g S env v h)

theorem EnvOk_foldl_pushLocal_bindings (g : Gamma) (S : BTable)
    (env : LEnv) (bs : List ((VarName × SrcLoc) × BoundExpr))
    (h : EnvOk g S env) :
    EnvOk g S (bs.foldl (fun acc b => acc.pushLocal b.1.1) env) := by
  induction bs generalizing env with
  | nil => exact h
  | cons b rest ih => exact ih _ (EnvOk_pushLocal g S env b.1.1 h)

theorem freshArgVars_spec (h : String) (n : Nat) (l : Lowerer) (i : Nat) :
    (freshArgVars l h i n).2.blocks = l.blocks ∧
    (freshArgVars l h i n).1.length = n := by
  induction n generalizing l i with
  | zero => exact ⟨rfl, rfl⟩
  | succ m ih =>
    simp only [freshArgVars, IdGen.freshVar]
    obtain ⟨h1, h3⟩ :=
      ih { l with vars := { count := l.vars.count + 1 } } (i + 1)
    exact ⟨h1, by simp [h3]⟩

theorem freshItobVars_spec (n : Nat) (l : Lowerer) :
    (freshItobVars l n).2.blocks = l.blocks := by
  induction n generalizing l with
  | zero => rfl
  | succ m ih =>
    simp only [freshItobVars, IdGen.freshVar]
    exact ih { l with vars := { count := l.vars.count + 1 } }

theorem freshRenamedParams_spec (ps : List VarName) (l : Lowerer) :
    (freshRenamedParams l ps).2.blocks = l.blocks ∧
    (freshRenamedParams l ps).1.length = ps.length := by
  induction ps generalizing l with
  | nil => exact ⟨rfl, rfl⟩
  | cons p rest ih =>
    simp only [freshRenamedParams, IdGen.freshVar]
    obtain ⟨h1, h3⟩ := ih { l with vars := { count := l.vars.count + 1 } }
    exact ⟨h1, by simp [h3]⟩

theorem primBlock_spec (p : Prim) (l : Lowerer) (dest : VarName)
    (imms : List Immediate) (next : BlockBody) (b : BlockBody)
    (l3 : Lowerer) (S : BTable)
    (hrun : primBlock l p dest imms next = .ok (b, l3))
    (hnext : BodyOk S next) :
    l3.blocks = l.blocks ∧ BodyOk S b := by
  cases p with
  | Add1 =>
    simp only [primBlock] at hrun
    cases h0 : listIndex imms 0 with
    | error e => rw [h0] at hrun; simp [errBind] at hrun
    | ok a0 =>
      rw [h0] at hrun
      simp only [okBind, Except.ok.injEq, Prod.mk.injEq] at hrun
      obtain ⟨rfl, rfl⟩ := hrun
      exact ⟨rfl, hnext⟩
  | Sub1 =>
    simp only [primBlock] at hrun
    cases h0 : listIndex imms 0 with
    | error e => rw [h0] at hrun; simp [errBind] at hrun
    | ok a0 =>
      rw [h0] at hrun
      simp only [okBind, Except.ok.injEq, Prod.mk.injEq] at hrun
      obtain ⟨rfl, rfl⟩ := hrun
      exact ⟨rfl, hnext⟩
  | Not =>
    simp only [primBlock, IdGen.freshVar] at hrun
    cases h0 : listIndex imms 0 with
    | error e => rw [h0] at hrun; simp [errBind] at hrun
    | ok a0 =>
      rw [h0] at hrun
      simp only [okBind, Except.ok.injEq, Prod.mk.injEq] at hrun
      obtain ⟨rfl, rfl⟩ := hrun
      exact ⟨rfl, hnext⟩
  | And =>
    simp only [primBlock] at hrun
    cases h0 : listIndex imms 0 with
    | error e => rw [h0] at hrun; simp [errBind] at hrun
    | ok a0 =>
      rw [h0] at hrun
      simp only [okBind] at hrun
      cases h1 : listIndex imms 1 with
      | error e => rw [h1] at hrun; simp [errBind] at hrun
      | ok a1 =>
        rw [h1] at hrun
        simp only [okBind] at hrun
        rcases hit : freshItobVars l imms.length with ⟨tc, l2⟩
        rw [hit] at hrun
        simp only [okBind] at hrun
        cases h2 : listIndex tc 0 with
        | error e => rw [h2] at hrun; simp [errBind] at hrun
        | ok t0 =>
          rw [h2] at hrun
          simp only [okBind] at hrun
          cases h3 : listIndex tc 1 with
          | error e => rw [h3] at hrun; simp [errBind] at hrun
          | ok t1 =>
            rw [h3] at hrun
            simp only [okBind, Except.ok.injEq, Prod.mk.injEq] at hrun
            obtain ⟨rfl, rfl⟩ := hrun
            have hb := freshItobVars_spec imms.length l
            rw [hit] at hb
            exact ⟨hb, hnext⟩
  | Or =>
    simp only [primBlock] at hrun
    cases h0 : listIndex imms 0 with
    | error e => rw [h0] at hrun; simp [errBind] at hrun
    | ok a0 =>
      rw [h0] at hrun
      simp only [okBind] at hrun
      cases h1 : listIndex imms 1 with
      | error e => rw [h1] at hrun; simp [errBind] at hrun
      | ok a1 =>
        rw [h1] at hrun
        simp only [okBind] at hrun
        rcases hit : freshItobVars l imms.length with ⟨tc, l2⟩
        rw [hit] at hrun
        simp only [okBind] at hrun
        cases h2 : listIndex tc 0 with
        | error e => rw [h2] at hrun; simp [errBind] at hrun
        | ok t0 =>
          rw [h2] at hrun
          simp only [okBind] at hrun
          cases h3 : listIndex tc 1 with
          | error e => rw [h3] at hrun; simp [errBind] at hrun
          | ok t1 =>
            rw [h3] at hrun
            simp only [okBind, Except.ok.injEq, Prod.mk.injEq] at hrun
            obtain ⟨rfl, rfl⟩ := hrun
            have hb := freshItobVars_spec imms.length l
            rw [hit] at hb
            exact ⟨hb, hnext⟩
  | Add | Sub | Mul | Lt | Le | Gt | Ge | Eq | Neq =>
    simp only [primBlock] at hrun
    cases h0 : listIndex imms 0 with
    | error e => rw [h0] at hrun; simp [errBind] at hrun
    | ok a0 =>
      rw [h0] at hrun
      simp only [okBind] at hrun
      cases h1 : listIndex imms 1 with
      | error e => rw [h1] at hrun; simp [errBind] at hrun
      | ok a1 =>
        rw [h1] at hrun
        simp only [okBind, Except.ok.injEq, Prod.mk.injEq] at hrun
        obtain ⟨rfl, rfl⟩ := hrun
        exact ⟨rfl, hnext⟩

theorem gLookup_cons (k : FunName) (n : Nat) (g : Gamma) (t : FunName) :
    gLookup ((k, n) :: g) t = if k = t then some n else gLookup g t := by
  simp only [gLookup, List.find?]
  by_cases h : k = t
  · subst h; simp
  · have : (k == t) = false := by simpa using h
    rw [this, if_neg h]

theorem LEnv_get_addLocalFun (env : LEnv) (k : FunName) (bn : BlockName)
    (t : FunName) :
    LEnv.get (env.addLocalFun k bn) t =
      if k = t then some (.Local env.locals bn) else LEnv.get env t := by
  simp only [LEnv.get, LEnv.addLocalFun, List.find?]
  by_cases h : k = t
  · subst h; simp
  · have : (k == t) = false := by simpa using h
    rw [this, if_neg h]

theorem gLookup_pushDecls_not_mem (ds :
    List (FunName × List (VarName × SrcLoc) × BoundExpr × SrcLoc))
    (g : Gamma) (f : FunName) (hf : f ∉ ds.map (·.1)) :
    gLookup (pushDecls g ds) f = gLookup g f := by
  induction ds generalizing g with
  | nil => rfl
  | cons d rest ih =>
    simp only [List.map_cons, List.mem_cons] at hf
    push_neg at hf
    simp only [pushDecls, List.foldl]
    have := ih ((d.1, d.2.1.length) :: g) hf.2
    simp only [pushDecls] at this
    rw [this, gLookup_cons, if_neg (fun he => hf.1 he.symm)]

theorem gLookup_pushDecls_mem (ds :
    List (FunName × List (VarName × SrcLoc) × BoundExpr × SrcLoc))
    (g : Gamma) (d : FunName × List (VarName × SrcLoc) × BoundExpr × SrcLoc)
    (hnd : (ds.map (·.1)).Nodup) (hd : d ∈ ds) :
    gLookup (pushDecls g ds) d.1 = some d.2.1.length := by
  induction ds generalizing g with
  | nil => cases hd
  | cons e rest ih =>
    simp only [List.map_cons, List.nodup_cons] at hnd
    rcases List.mem_cons.mp hd with rfl | hd2
    · have : d.1 ∉ rest.map (·.1) := hnd.1
      simp only [pushDecls, List.foldl]
      have h2 := gLookup_pushDecls_not_mem rest ((d.1, d.2.1.length) :: g)
        d.1 this
      simp only [pushDecls] at h2
      rw [h2, gLookup_cons, if_pos rfl]
    · simp only [pushDecls, List.foldl]
      have := ih ((e.1, e.2.1.length) :: g) hnd.2 hd2
      simpa only [pushDecls] using this

theorem registerDecls_char (ds :
    List (FunName × List (VarName × SrcLoc) × BoundExpr × SrcLoc))
    (l : Lowerer) (env : LEnv) :
    (registerDecls l env ds).1.vars = l.vars ∧
    (registerDecls l env ds).1.blocks.count =
      l.blocks.count + ds.length ∧
    (registerDecls l env ds).2.locals = env.locals ∧
    (∀ f, f ∉ ds.map (·.1) →
      LEnv.get (registerDecls l env ds).2 f = LEnv.get env f) ∧
    ((ds.map (·.1)).Nodup → ∀ i d, ds.get? i = some d →
      LEnv.get (registerDecls l env ds).2 d.1 =
        some (.Local env.locals
          { idx := l.blocks.count + i, hint := d.1.hint ++ "_tail" })) := by
  induction ds generalizing l env with
  | nil =>
    refine ⟨rfl, rfl, rfl, fun f _ => rfl, fun _ i d hd => ?_⟩
    simp at hd
  | cons d rest ih =>
    simp only [registerDecls, IdGen.freshBlock]
    obtain ⟨h1, h2, h3, h4, h5⟩ :=
      ih { l with blocks := { count := l.blocks.count + 1 } }
        (env.addLocalFun d.1 { idx := l.blocks.count, hint := d.1.hint ++ "_tail" })
    refine ⟨h1, ?_, by simpa [LEnv.addLocalFun] using h3, ?_, ?_⟩
    · rw [h2]
      simp only [List.length_cons]
      omega
    · intro f hf
      simp only [List.map_cons, List.mem_cons] at hf
      push_neg at hf
      rw [h4 f hf.2, LEnv_get_addLocalFun,
        if_neg (fun he => hf.1 he.symm)]
    · intro hnd i e he
      simp only [List.map_cons, List.nodup_cons] at hnd
      match i, he with
      | 0, he =>
        simp only [List.get?] at he
        cases he
        rw [h4 d.1 hnd.1, LEnv_get_addLocalFun, if_pos rfl]
        simp [LEnv.addLocalFun]
      | i + 1, he =>
        simp only [List.get?] at he
        have hq := h5 hnd.2 i e he
        rw [hq]
        have harith : l.blocks.count + 1 + i = l.blocks.count + (i + 1) := by
          omega
        simp only [LEnv.addLocalFun, harith]

theorem find?_declTable_skip (ds :
    List (FunName × List (VarName × SrcLoc) × BoundExpr × SrcLoc))
    (c locN : Nat) (k : BlockName) (hk : k.idx < c) :
    (declTable c locN ds).find? (fun p => p.1 == k) = none := by
  induction ds generalizing c with
  | nil => rfl
  | cons d rest ih =>
    simp only [declTable, List.find?]
    have hne : ({ idx := c, hint := d.1.hint ++ "_tail" } : BlockName) ≠ k := by
      intro he
      rw [← he] at hk
      simp at hk
    have : (({ idx := c, hint := d.1.hint ++ "_tail" } : BlockName) == k) =
        false := by simpa using hne
    rw [this]
    exact ih (c + 1) (by omega)

theorem sLookup_declTable_append (ds :
    List (FunName × List (VarName × SrcLoc) × BoundExpr × SrcLoc))
    (S : BTable) (c locN : Nat) (i : Nat)
    (d : FunName × List (VarName × SrcLoc) × BoundExpr × SrcLoc)
    (hi : ds.get? i = some d) :
    sLookup (declTable c locN ds ++ S)
      { idx := c + i, hint := d.1.hint ++ "_tail" } =
      some (d.2.1.length + locN) := by
  induction ds generalizing c i with
  | nil => simp at hi
  | cons e rest ih =>
    match i, hi with
    | 0, hi =>
      simp only [List.get?] at hi
      cases hi
      simp only [declTable, List.cons_append]
      rw [sLookup_cons, if_pos (by simp)]
    | i + 1, hi =>
      simp only [List.get?] at hi
      simp only [declTable, List.cons_append]
      rw [sLookup_cons, if_neg ?_]
      · have := ih (c + 1) i hi
        have harith : c + 1 + i = c + (i + 1) := by omega
        rw [harith] at this
        exact this
      · intro he
        have : c = c + (i + 1) := congrArg BlockName.idx he
        omega

theorem SExt_declTable (ds :
    List (FunName × List (VarName × SrcLoc) × BoundExpr × SrcLoc))
    (S : BTable) (c locN : Nat) (hS : SFresh S c) :
    SExt S (declTable c locN ds ++ S) := by
  intro bn n h
  have hlt : bn.idx < c := by
    obtain ⟨p, hp, hp2⟩ := sLookup_mem S bn n h
    have := hS p hp
    rw [hp2] at this
    exact this
  simp only [sLookup, List.find?_append]
  rw [find?_declTable_skip ds c locN bn hlt]
  simpa [sLookup] using h

theorem mem_declTable_idx (ds :
    List (FunName × List (VarName × SrcLoc) × BoundExpr × SrcLoc))
    (c locN : Nat) (p : BlockName × Nat)
    (hp : p ∈ declTable c locN ds) :
    c ≤ p.1.idx ∧ p.1.idx < c + ds.length := by
  induction ds generalizing c with
  | nil => cases hp
  | cons d rest ih =>
    simp only [declTable, List.mem_cons] at hp
    rcases hp with rfl | hp2
    · simp
    · have := ih (c + 1) hp2
      simp only [List.length_cons]
      omega

theorem SFresh_declTable_append (ds :
    List (FunName × List (VarName × SrcLoc) × BoundExpr × SrcLoc))
    (S : BTable) (c locN : Nat) (hS : SFresh S c) :
    SFresh (declTable c locN ds ++ S) (c + ds.length) := by
  intro p hp
  rcases List.mem_append.mp hp with hp2 | hp2
  · exact (mem_declTable_idx ds c locN p hp2).2
  · have := hS p hp2
    omega



theorem bindOk {e a b : Type} (x : Except e a) (f : a → Except e b)
    (y : b) :
    (x >>= f) = .ok y ↔ ∃ z, x = .ok z ∧ f z = .ok y := by
  cases x with
  | error e2 => simp [errBind]
  | ok z => simp [okBind]

theorem EnvOk_gamma_weaken (g g2 : Gamma) (S : BTable) (env : LEnv)
    (hg : ∀ f ar, gLookup g f = some ar → gLookup g2 f = some ar)
    (h : EnvOk g2 S env) : EnvOk g S env := by
  intro f ar c bn h1 h2
  exact h f ar c bn (hg f ar h1) h2

mutual
theorem lowerExprKont_inv (e : BoundExpr) (g : Gamma) (S : BTable)
    (st : Lowerer) (k : Continuation) (env : LEnv)
    (funs : List FunBlock) (blocks : List BasicBlock) (out : BlockBody)
    (st2 : Lowerer) (env2 : LEnv) (funs2 : List FunBlock)
    (blocks2 : List BasicBlock) (hws : WellScoped g e)
    (hinv : LowInv g S st env funs blocks) (hk : KOk S k)
    (hrun : lowerExprKont st e k env funs blocks =
      .ok (out, st2, env2, funs2, blocks2)) :
    ∃ S2, SExt S S2 ∧ st.blocks.count ≤ st2.blocks.count ∧
      LowInv g S2 st2 env2 funs2 blocks2 ∧ BodyOk S2 out := by
  match e with
  | .Num n loc =>
    simp only [lowerExprKont, Except.ok.injEq, Prod.mk.injEq] at hrun
    obtain ⟨rfl, rfl, rfl, rfl, rfl⟩ := hrun
    exact ⟨S, SExt_refl S, Nat.le_refl _, hinv, invoke_BodyOk S k _ hk⟩
  | .Bool b loc =>
    simp only [lowerExprKont, Except.ok.injEq, Prod.mk.injEq] at hrun
    obtain ⟨rfl, rfl, rfl, rfl, rfl⟩ := hrun
    exact ⟨S, SExt_refl S, Nat.le_refl _, hinv, invoke_BodyOk S k _ hk⟩
  | .Var v loc =>
    simp only [lowerExprKont, Except.ok.injEq, Prod.mk.injEq] at hrun
    obtain ⟨rfl, rfl, rfl, rfl, rfl⟩ := hrun
    exact ⟨S, SExt_refl S, Nat.le_refl _, hinv, invoke_BodyOk S k _ hk⟩
  | .Prim p args loc =>
    cases hws with
    | Prim _ _ _ _ hargs =>
    cases k with
    | Return =>
      simp only [lowerExprKont, IdGen.freshVar] at hrun
      rw [bindOk] at hrun
      obtain ⟨⟨block, l3⟩, hpb, hrun⟩ := hrun
      simp only at hrun
      have hspec := primBlock_spec p _ _ _ _ block l3 S hpb
        (invoke_BodyOk S .Return _ trivial)
      have hl3b : l3.blocks =
          (freshArgVars st p.display 0 args.length).2.blocks := hspec.1
      rw [(freshArgVars_spec p.display args.length st 0).1] at hl3b
      obtain ⟨S2, hext, hle, hinv2, hout⟩ :=
        lowerArgsRev_inv args g S l3 _ block env funs blocks out
          st2 env2 funs2 blocks2 hargs
          ⟨hinv.1, hinv.2.1, hinv.2.2.1,
            by rw [hl3b]; exact hinv.2.2.2⟩
          hspec.2 hrun
      refine ⟨S2, hext, ?_, hinv2, hout⟩
      rw [hl3b] at hle
      exact hle
    | Block res kblock =>
      simp only [lowerExprKont] at hrun
      rw [bindOk] at hrun
      obtain ⟨⟨block, l3⟩, hpb, hrun⟩ := hrun
      simp only at hrun
      have hspec := primBlock_spec p _ _ _ _ block l3 S hpb hk
      have hl3b : l3.blocks =
          (freshArgVars st p.display 0 args.length).2.blocks := hspec.1
      rw [(freshArgVars_spec p.display args.length st 0).1] at hl3b
      obtain ⟨S2, hext, hle, hinv2, hout⟩ :=
        lowerArgsRev_inv args g S l3 _ block env funs blocks out
          st2 env2 funs2 blocks2 hargs
          ⟨hinv.1, hinv.2.1, hinv.2.2.1,
            by rw [hl3b]; exact hinv.2.2.2⟩
          hspec.2 hrun
      refine ⟨S2, hext, ?_, hinv2, hout⟩
      rw [hl3b] at hle
      exact hle
  | .Let bindings body loc =>
    cases hws with
    | Let _ _ _ _ hbs hbody =>
    simp only [lowerExprKont] at hrun
    rw [bindOk] at hrun
    obtain ⟨⟨block, l1, env2x, funs1, blocks1⟩, hbodyrun, hrun⟩ := hrun
    simp only at hrun
    rw [bindOk] at hrun
    obtain ⟨⟨block2, l2, funs2x, blocks2x⟩, hbsrun, hrun⟩ := hrun
    simp only [Except.ok.injEq, Prod.mk.injEq] at hrun
    obtain ⟨rfl, rfl, rfl, rfl, rfl⟩ := hrun
    obtain ⟨S1, hext1, hle1, hinv2, hblock⟩ :=
      lowerExprKont_inv body g S st k _ funs blocks block l1 env2x
        funs1 blocks1 hbody
        ⟨EnvOk_foldl_pushLocal_bindings g S env bindings hinv.1,
          hinv.2.1, hinv.2.2.1, hinv.2.2.2⟩
        hk hbodyrun
    obtain ⟨S2, hext2, hle2, hinv3, hout⟩ :=
      lowerBindingsRev_inv bindings g S1 l1 env2x block funs1
        blocks1 block2 l2 funs2x blocks2x hbs hinv2 hblock hbsrun
    exact ⟨S2, SExt_trans S S1 S2 hext1 hext2, Nat.le_trans hle1 hle2,
      hinv3, hout⟩
  | .If cond thn els loc =>
    cases hws with
    | If _ _ _ _ _ hc ht he2 =>
    simp only [lowerExprKont, IdGen.freshVar, IdGen.freshBlock] at hrun
    rw [bindOk] at hrun
    obtain ⟨⟨cond_branch, l2, env1, funs1, blocks1⟩, hcond, hrun⟩ := hrun
    simp only at hrun
    have hfresh := hinv.2.2.2
    have hne : ({ idx := st.blocks.count + 1, hint := "els" } : BlockName)
        ≠ { idx := st.blocks.count, hint := "thn" } := by
      intro hq
      have h2 : st.blocks.count + 1 = st.blocks.count :=
        congrArg BlockName.idx hq
      omega
    have hext1 : SExt S
        (({ idx := st.blocks.count + 1, hint := "els" }, 0) ::
          (({ idx := st.blocks.count, hint := "thn" }, 0) :: S)) := by
      refine SExt_trans S _ _
        (SExt_cons_of_fresh S st.blocks.count
          { idx := st.blocks.count, hint := "thn" } 0 hfresh
          (Nat.le_refl _)) ?_
      refine SExt_cons_of_fresh _ (st.blocks.count + 1)
        { idx := st.blocks.count + 1, hint := "els" } 0 ?_
        (Nat.le_refl _)
      exact SFresh_cons S (st.blocks.count + 1) _ 0
        (SFresh_mono S _ _ hfresh (by omega)) (Nat.lt_succ_self _)
    have hS1thn : sLookup
        (({ idx := st.blocks.count + 1, hint := "els" }, 0) ::
          (({ idx := st.blocks.count, hint := "thn" }, 0) :: S))
        { idx := st.blocks.count, hint := "thn" } = some 0 := by
      rw [sLookup_cons, if_neg hne, sLookup_cons, if_pos rfl]
    have hS1els : sLookup
        (({ idx := st.blocks.count + 1, hint := "els" }, 0) ::
          (({ idx := st.blocks.count, hint := "thn" }, 0) :: S))
        { idx := st.blocks.count + 1, hint := "els" } = some 0 := by
      rw [sLookup_cons, if_pos rfl]
    have hS1fresh : SFresh
        (({ idx := st.blocks.count + 1, hint := "els" }, 0) ::
          (({ idx := st.blocks.count, hint := "thn" }, 0) :: S))
        (st.blocks.count + 1 + 1) := by
      refine SFresh_cons _ _ _ _ (SFresh_cons _ _ _ _ ?_ ?_) ?_
      · exact SFresh_mono S _ _ hfresh (by omega)
      · exact Nat.lt_of_lt_of_le (Nat.lt_succ_self _) (Nat.le_succ _)
      · exact Nat.lt_succ_self _
    obtain ⟨S2, hext2, hle2, hinv2, hcondbody⟩ :=
      lowerExprKont_inv cond g
        (({ idx := st.blocks.count + 1, hint := "els" }, 0) ::
          (({ idx := st.blocks.count, hint := "thn" }, 0) :: S))
        _ _ env funs blocks cond_branch l2 env1 funs1 blocks1 hc
        (by exact ⟨EnvOk_mono g S _ env hext1 hinv.1,
          FunsOk_mono S _ funs hext1 hinv.2.1,
          BlocksOk_mono S _ blocks hext1 hinv.2.2.1, hS1fresh⟩)
        (by exact ⟨hS1thn, hS1els⟩) hcond
    have hle2a : st.blocks.count + 1 + 1 ≤ l2.blocks.count := hle2
    cases k with
    | Return =>
      simp only at hrun
      rw [bindOk] at hrun
      obtain ⟨⟨thn_body, l3, env2x, funs2x, blocks2x⟩, hthnrun, hrun⟩ :=
        hrun
      simp only at hrun
      rw [bindOk] at hrun
      obtain ⟨⟨els_body, l4, env3x, funs3x, blocks3x⟩, helsrun, hrun⟩ :=
        hrun
      simp only [Except.ok.injEq, Prod.mk.injEq] at hrun
      obtain ⟨rfl, rfl, rfl, rfl, rfl⟩ := hrun
      obtain ⟨S3, hext3, hle3, hinv3, hthnbody⟩ :=
        lowerExprKont_inv thn g S2 l2 .Return env1 funs1 blocks1
          thn_body l3 env2x funs2x blocks2x ht hinv2 trivial hthnrun
      obtain ⟨S4, hext4, hle4, hinv4, helsbody⟩ :=
        lowerExprKont_inv els g S3 l3 .Return env2x funs2x blocks2x
          els_body l4 env3x funs3x blocks3x he2 hinv3 trivial helsrun
      have hch : SExt
          (({ idx := st.blocks.count + 1, hint := "els" }, 0) ::
            (({ idx := st.blocks.count, hint := "thn" }, 0) :: S)) S4 :=
        SExt_trans _ S2 S4 hext2 (SExt_trans S2 S3 S4 hext3 hext4)
      refine ⟨S4, SExt_trans S _ S4 hext1 hch, by omega, hinv4, ?_⟩
      refine ⟨⟨⟨hch _ 0 hS1thn, ?_⟩, ⟨hch _ 0 hS1els, ?_⟩, trivial⟩, ?_⟩
      · exact BodyOk_mono thn_body S3 S4 hext4 hthnbody
      · exact helsbody
      · exact BodyOk_mono cond_branch S2 S4
          (SExt_trans S2 S3 S4 hext3 hext4) hcondbody
    | Block dest kbody =>
      simp only [IdGen.freshVar, IdGen.freshBlock] at hrun
      rw [bindOk] at hrun
      obtain ⟨⟨thn_body, l3, env2x, funs2x, blocks2x⟩, hthnrun, hrun⟩ :=
        hrun
      simp only at hrun
      rw [bindOk] at hrun
      obtain ⟨⟨els_body, l4, env3x, funs3x, blocks3x⟩, helsrun, hrun⟩ :=
        hrun
      simp only [Except.ok.injEq, Prod.mk.injEq] at hrun
      obtain ⟨rfl, rfl, rfl, rfl, rfl⟩ := hrun
      have hfresh2 := hinv2.2.2.2
      have hextj : SExt S2
          (({ idx := l2.blocks.count, hint := "jn" }, 1) :: S2) :=
        SExt_cons_of_fresh S2 l2.blocks.count _ 1 hfresh2 (Nat.le_refl _)
      have hS2j : sLookup
          (({ idx := l2.blocks.count, hint := "jn" }, 1) :: S2)
          { idx := l2.blocks.count, hint := "jn" } = some 1 := by
        rw [sLookup_cons, if_pos rfl]
      have hfresh2x : SFresh
          (({ idx := l2.blocks.count, hint := "jn" }, 1) :: S2)
          (l2.blocks.count + 1) :=
        SFresh_cons S2 (l2.blocks.count + 1) _ 1
          (SFresh_mono S2 _ _ hfresh2 (Nat.le_succ _))
          (Nat.lt_succ_self _)
      obtain ⟨S3, hext3, hle3, hinv3, hthnbody⟩ :=
        lowerExprKont_inv thn g
          (({ idx := l2.blocks.count, hint := "jn" }, 1) :: S2)
          _ _ env1 funs1 blocks1 thn_body l3 env2x funs2x blocks2x ht
          (by exact ⟨EnvOk_mono g S2 _ env1 hextj hinv2.1,
            FunsOk_mono S2 _ funs1 hextj hinv2.2.1,
            BlocksOk_mono S2 _ blocks1 hextj hinv2.2.2.1, hfresh2x⟩)
          (by exact hS2j) hthnrun
      obtain ⟨S4, hext4, hle4, hinv4, helsbody⟩ :=
        lowerExprKont_inv els g S3 l3 _ env2x funs2x blocks2x
          els_body l4 env3x funs3x blocks3x he2 hinv3
          (by exact hext3 _ 1 hS2j) helsrun
      have hle3a : l2.blocks.count + 1 ≤ l3.blocks.count := hle3
      have hch2 : SExt
          (({ idx := l2.blocks.count, hint := "jn" }, 1) :: S2) S4 :=
        SExt_trans _ S3 S4 hext3 hext4
      have hch : SExt
          (({ idx := st.blocks.count + 1, hint := "els" }, 0) ::
            (({ idx := st.blocks.count, hint := "thn" }, 0) :: S)) S4 :=
        SExt_trans _ S2 S4 hext2 (SExt_trans S2 _ S4 hextj hch2)
      refine ⟨S4, SExt_trans S _ S4 hext1 hch, by omega, hinv4, ?_⟩
      refine ⟨⟨⟨hch _ 0 hS1thn, ?_⟩, ⟨hch _ 0 hS1els, ?_⟩,
        ⟨hch2 _ 1 hS2j, ?_⟩, trivial⟩, ?_⟩
      · exact BodyOk_mono thn_body S3 S4 hext4 hthnbody
      · exact helsbody
      · exact BodyOk_mono kbody S S4 (SExt_trans S _ S4 hext1 hch) hk
      · exact BodyOk_mono cond_branch S2 S4
          (SExt_trans S2 _ S4 hextj hch2) hcondbody
  | .FunDefs decls body loc =>
    cases hws with
    | FunDefs _ _ _ _ hnodup hfrg hds hbody =>
    simp only [lowerExprKont] at hrun
    rw [bindOk] at hrun
    obtain ⟨⟨l2, funs1, blocks1⟩, hld, hrun⟩ := hrun
    simp only at hrun
    obtain ⟨hcv, hcb, hcl, hcnot, hcidx⟩ := registerDecls_char decls st env
    have hfresh := hinv.2.2.2
    have hext1 : SExt S
        (declTable st.blocks.count env.locals.length decls ++ S) :=
      SExt_declTable decls S st.blocks.count env.locals.length hfresh
    have henv1 : EnvOk (pushDecls g decls)
        (declTable st.blocks.count env.locals.length decls ++ S)
        (registerDecls st env decls).2 := by
      intro f ar c bn h1 h2
      by_cases hmem : f ∈ decls.map (·.1)
      · obtain ⟨d, hd, hdeq⟩ := List.mem_map.mp hmem
        subst hdeq
        obtain ⟨i, hi⟩ := List.get?_of_mem hd
        have hget := hcidx hnodup i d hi
        rw [hget] at h2
        have har2 : ar = d.2.1.length := by
          have hg2 := gLookup_pushDecls_mem decls g d hnodup hd
          rw [hg2] at h1
          exact (Option.some.inj h1).symm
        have h2x := Option.some.inj h2
        injection h2x with hcx hbnx
        subst hcx
        subst hbnx
        subst har2
        exact sLookup_declTable_append decls S st.blocks.count
          env.locals.length i d hi
      · have h1x : gLookup g f = some ar := by
          rw [gLookup_pushDecls_not_mem decls g f hmem] at h1
          exact h1
        rw [hcnot f hmem] at h2
        exact hext1 _ _ (hinv.1 f ar c bn h1x h2)
    obtain ⟨S2, hext2, hle2, hinv2⟩ :=
      lowerDecls_inv decls (pushDecls g decls)
        (declTable st.blocks.count env.locals.length decls ++ S)
        _ _ funs blocks l2 funs1 blocks1 hds
        (fun d hd => gLookup_pushDecls_mem decls g d hnodup hd)
        (by exact ⟨henv1, FunsOk_mono S _ funs hext1 hinv.2.1,
          BlocksOk_mono S _ blocks hext1 hinv.2.2.1,
          by rw [hcb]
             exact SFresh_declTable_append decls S st.blocks.count
               env.locals.length hfresh⟩)
        hld
    obtain ⟨S3, hext3, hle3, hinv3, hout⟩ :=
      lowerExprKont_inv body (pushDecls g decls) S2 l2 k _ funs1
        blocks1 out st2 env2 funs2 blocks2 hbody hinv2
        (KOk_mono k S S2 (SExt_trans S _ S2 hext1 hext2) hk) hrun
    refine ⟨S3, SExt_trans S _ S3 hext1 (SExt_trans _ S2 S3 hext2 hext3),
      by omega, ?_, hout⟩
    refine ⟨EnvOk_gamma_weaken g (pushDecls g decls) S3 env2 ?_ hinv3.1,
      hinv3.2.1, hinv3.2.2.1, hinv3.2.2.2⟩
    intro f ar hfar
    by_cases hmem : f ∈ decls.map (·.1)
    · obtain ⟨d, hd, hdeq⟩ := List.mem_map.mp hmem
      subst hdeq
      have hnone := hfrg d hd
      rw [hnone] at hfar
      cases hfar
    · rw [gLookup_pushDecls_not_mem decls g f hmem]
      exact hfar
  | .Call f args loc =>
    cases hws with
    | Call _ _ _ _ hf hargs =>
    simp only [lowerExprKont] at hrun
    cases hget : LEnv.get env f with
    | none => rw [hget] at hrun; simp at hrun
    | some ft =>
      rw [hget] at hrun
      cases ft with
      | Extern =>
        simp only [IdGen.freshVar] at hrun
        have hfrv : SFresh S
            (freshArgVars st f.hint 0 args.length).2.blocks.count := by
          rw [(freshArgVars_spec f.hint args.length st 0).1]
          exact hinv.2.2.2
        obtain ⟨S2, hext, hle, hinv2, hout⟩ :=
          lowerArgsRev_inv args g S _ _ _ env funs blocks out
            st2 env2 funs2 blocks2 hargs
            (by exact ⟨hinv.1, hinv.2.1, hinv.2.2.1, hfrv⟩)
            (by exact invoke_BodyOk S k _ hk) hrun
        refine ⟨S2, hext, ?_, hinv2, hout⟩
        have hle2 : (freshArgVars st f.hint 0 args.length).2.blocks.count
            ≤ st2.blocks.count := hle
        rw [(freshArgVars_spec f.hint args.length st 0).1] at hle2
        exact hle2
      | Local captured block_name =>
        have hfrv : SFresh S
            (freshArgVars st f.hint 0 args.length).2.blocks.count := by
          rw [(freshArgVars_spec f.hint args.length st 0).1]
          exact hinv.2.2.2
        cases k with
        | Return =>
          simp only at hrun
          obtain ⟨S2, hext, hle, hinv2, hout⟩ :=
            lowerArgsRev_inv args g S _ _ _ env funs blocks out
              st2 env2 funs2 blocks2 hargs
              (by exact ⟨hinv.1, hinv.2.1, hinv.2.2.1, hfrv⟩)
              (by
                show sLookup S block_name = some
                  (((freshArgVars st f.hint 0 args.length).1 ++
                    captured).map Immediate.Var).length
                rw [List.length_map, List.length_append,
                  (freshArgVars_spec f.hint args.length st 0).2]
                exact hinv.1 f args.length captured block_name hf hget)
              hrun
          refine ⟨S2, hext, ?_, hinv2, hout⟩
          have hle2 :
              (freshArgVars st f.hint 0 args.length).2.blocks.count
              ≤ st2.blocks.count := hle
          rw [(freshArgVars_spec f.hint args.length st 0).1] at hle2
          exact hle2
        | Block dest next =>
          simp only at hrun
          obtain ⟨S2, hext, hle, hinv2, hout⟩ :=
            lowerArgsRev_inv args g S _ _ _ env funs blocks out
              st2 env2 funs2 blocks2 hargs
              (by exact ⟨hinv.1, hinv.2.1, hinv.2.2.1, hfrv⟩)
              (by exact hk) hrun
          refine ⟨S2, hext, ?_, hinv2, hout⟩
          have hle2 :
              (freshArgVars st f.hint 0 args.length).2.blocks.count
              ≤ st2.blocks.count := hle
          rw [(freshArgVars_spec f.hint args.length st 0).1] at hle2
          exact hle2

theorem lowerArgsRev_inv (args : List BoundExpr) (g : Gamma) (S : BTable)
    (st : Lowerer) (vs : List VarName) (block : BlockBody) (env : LEnv)
    (funs : List FunBlock) (blocks : List BasicBlock) (out : BlockBody)
    (st2 : Lowerer) (env2 : LEnv) (funs2 : List FunBlock)
    (blocks2 : List BasicBlock) (hargs : ∀ a ∈ args, WellScoped g a)
    (hinv : LowInv g S st env funs blocks) (hblock : BodyOk S block)
    (hrun : lowerArgsRev st args vs block env funs blocks =
      .ok (out, st2, env2, funs2, blocks2)) :
    ∃ S2, SExt S S2 ∧ st.blocks.count ≤ st2.blocks.count ∧
      LowInv g S2 st2 env2 funs2 blocks2 ∧ BodyOk S2 out := by
  match args, vs with
  | [], _ =>
    simp only [lowerArgsRev, Except.ok.injEq, Prod.mk.injEq] at hrun
    obtain ⟨rfl, rfl, rfl, rfl, rfl⟩ := hrun
    exact ⟨S, SExt_refl S, Nat.le_refl _, hinv, hblock⟩
  | a :: args2, [] =>
    simp only [lowerArgsRev, Except.ok.injEq, Prod.mk.injEq] at hrun
    obtain ⟨rfl, rfl, rfl, rfl, rfl⟩ := hrun
    exact ⟨S, SExt_refl S, Nat.le_refl _, hinv, hblock⟩
  | a :: args2, v :: vs2 =>
    simp only [lowerArgsRev] at hrun
    rw [bindOk] at hrun
    obtain ⟨⟨inner, l1, env1, funs1, blocks1⟩, hinner, hrun⟩ := hrun
    simp only at hrun
    obtain ⟨S1, hext1, hle1, hinv1, hinnerOk⟩ :=
      lowerArgsRev_inv args2 g S st vs2 block env funs blocks inner l1
        env1 funs1 blocks1 (fun x hx => hargs x (List.mem_cons_of_mem _ hx))
        hinv hblock hinner
    obtain ⟨S2, hext2, hle2, hinv2, hout⟩ :=
      lowerExprKont_inv a g S1 l1 (.Block v inner) env1 funs1 blocks1
        out st2 env2 funs2 blocks2 (hargs a (List.mem_cons_self _ _)) hinv1 hinnerOk
        hrun
    exact ⟨S2, SExt_trans S S1 S2 hext1 hext2, Nat.le_trans hle1 hle2,
      hinv2, hout⟩

theorem lowerBindingsRev_inv (bs : List ((VarName × SrcLoc) × BoundExpr))
    (g : Gamma) (S : BTable) (st : Lowerer) (bindEnv : LEnv)
    (block : BlockBody) (funs : List FunBlock)
    (blocks : List BasicBlock) (out : BlockBody) (st2 : Lowerer)
    (funs2 : List FunBlock) (blocks2 : List BasicBlock)
    (hbs : ∀ b ∈ bs, WellScoped g b.2)
    (hinv : LowInv g S st bindEnv funs blocks) (hblock : BodyOk S block)
    (hrun : lowerBindingsRev st bs bindEnv block funs blocks =
      .ok (out, st2, funs2, blocks2)) :
    ∃ S2, SExt S S2 ∧ st.blocks.count ≤ st2.blocks.count ∧
      LowInv g S2 st2 bindEnv funs2 blocks2 ∧ BodyOk S2 out := by
  match bs with
  | [] =>
    simp only [lowerBindingsRev, Except.ok.injEq, Prod.mk.injEq] at hrun
    obtain ⟨rfl, rfl, rfl, rfl⟩ := hrun
    exact ⟨S, SExt_refl S, Nat.le_refl _, hinv, hblock⟩
  | ((v, vloc), rhs) :: rest =>
    simp only [lowerBindingsRev] at hrun
    rw [bindOk] at hrun
    obtain ⟨⟨inner, l1, funs1, blocks1⟩, hinner, hrun⟩ := hrun
    simp only at hrun
    rw [bindOk] at hrun
    obtain ⟨⟨outx, l2, env2x, funs2x, blocks2x⟩, hrhs, hrun⟩ := hrun
    simp only [Except.ok.injEq, Prod.mk.injEq] at hrun
    obtain ⟨rfl, rfl, rfl, rfl⟩ := hrun
    obtain ⟨S1, hext1, hle1, hinv1, hinnerOk⟩ :=
      lowerBindingsRev_inv rest g S st bindEnv block funs blocks
        inner l1 funs1 blocks1 (fun b hb => hbs b (List.mem_cons_of_mem _ hb))
        hinv hblock hinner
    obtain ⟨S2, hext2, hle2, hinv2, hout⟩ :=
      lowerExprKont_inv rhs g S1 l1 (.Block v inner) bindEnv funs1
        blocks1 outx l2 env2x funs2x blocks2x
        (hbs _ (List.mem_cons_self _ _)) hinv1 hinnerOk hrhs
    refine ⟨S2, SExt_trans S S1 S2 hext1 hext2,
      Nat.le_trans hle1 hle2, ?_, hout⟩
    exact ⟨EnvOk_mono g S1 S2 bindEnv hext2 hinv1.1, hinv2.2.1,
      hinv2.2.2.1, hinv2.2.2.2⟩

theorem lowerDecls_inv
    (ds : List (FunName × List (VarName × SrcLoc) × BoundExpr × SrcLoc))
    (g2 : Gamma) (S : BTable) (st : Lowerer) (env : LEnv)
    (funs : List FunBlock) (blocks : List BasicBlock) (st2 : Lowerer)
    (funs2 : List FunBlock) (blocks2 : List BasicBlock)
    (hds : ∀ d ∈ ds, WellScoped g2 d.2.2.1)
    (har : ∀ d ∈ ds, gLookup g2 d.1 = some d.2.1.length)
    (hinv : LowInv g2 S st env funs blocks)
    (hrun : lowerDecls st ds env funs blocks = .ok (st2, funs2, blocks2)) :
    ∃ S2, SExt S S2 ∧ st.blocks.count ≤ st2.blocks.count ∧
      LowInv g2 S2 st2 env funs2 blocks2 := by
  match ds with
  | [] =>
    simp only [lowerDecls, Except.ok.injEq, Prod.mk.injEq] at hrun
    obtain ⟨rfl, rfl, rfl⟩ := hrun
    exact ⟨S, SExt_refl S, Nat.le_refl _, hinv⟩
  | (name, params, dbody, dloc) :: rest =>
    simp only [lowerDecls] at hrun
    cases hget : LEnv.get env name with
    | none => rw [hget] at hrun; simp at hrun
    | some ft =>
      rw [hget] at hrun
      cases ft with
      | Extern => simp at hrun
      | Local captured label =>
        simp only [IdGen.freshFun] at hrun
        rw [bindOk] at hrun
        obtain ⟨⟨body, l1x, envd, funs1x, blocks1x⟩, hbody, hrun⟩ := hrun
        simp only at hrun
        obtain ⟨S1, hext1, hle1, hinv1, hbodyOk⟩ :=
          lowerExprKont_inv dbody g2 S st .Return _ funs blocks body
            l1x envd funs1x blocks1x
            (hds (name, params, dbody, dloc) (List.mem_cons_self _ _))
            (by exact ⟨EnvOk_foldl_pushLocal g2 S env _ hinv.1,
              hinv.2.1, hinv.2.2.1, hinv.2.2.2⟩)
            trivial hbody
        have hlab : sLookup S label =
            some (params.length + captured.length) :=
          hinv.1 name params.length captured label
            (har (name, params, dbody, dloc) (List.mem_cons_self _ _)) hget
        have hlab1 : sLookup S1 label =
            some (params.length + captured.length) :=
          hext1 _ _ hlab
        obtain ⟨S2, hext2, hle2, hinv2⟩ :=
          lowerDecls_inv rest g2 S1 _ env _ _ st2 funs2 blocks2
            (fun d hd => hds d (List.mem_cons_of_mem _ hd))
            (fun d hd => har d (List.mem_cons_of_mem _ hd))
            (by
              refine ⟨EnvOk_mono g2 S S1 env hext1 hinv.1, ?_, ?_, ?_⟩
              · refine FunsOk_append S1 funs1x _ hinv1.2.1 ?_
                show sLookup S1 label = some
                  (((freshRenamedParams l1x (params.map (·.1))).1 ++
                    captured).map Immediate.Var).length
                rw [List.length_map, List.length_append,
                  (freshRenamedParams_spec (params.map (·.1)) l1x).2,
                  List.length_map]
                exact hlab1
              · refine BlocksOk_append S1 blocks1x _ hinv1.2.2.1 ?_
                  hbodyOk
                show sLookup S1 label = some
                  (params.map (·.1) ++ captured).length
                rw [List.length_append, List.length_map]
                exact hlab1
              · show SFresh S1
                  (freshRenamedParams l1x
                    (params.map (·.1))).2.blocks.count
                rw [(freshRenamedParams_spec _ l1x).1]
                exact hinv1.2.2.2)
            hrun
        have hle2x : (freshRenamedParams l1x
            (params.map (·.1))).2.blocks.count ≤ st2.blocks.count := hle2
        rw [(freshRenamedParams_spec _ l1x).1] at hle2x
        exact ⟨S2, SExt_trans S S1 S2 hext1 hext2, by omega, hinv2⟩
end

theorem LEnv_get_addExtern (env : LEnv) (n f : FunName) :
    LEnv.get (env.addExtern n) f =
      if n = f then some .Extern else LEnv.get env f := by
  simp only [LEnv.get, LEnv.addExtern, List.find?]
  by_cases h : n = f
  · subst h; simp
  · have : (n == f) = false := by simpa using h
    rw [this, if_neg h]

theorem externFold_locals (es : List (ExtDecl VarName FunName))
    (env : LEnv) :
    (es.foldl (fun acc ext => acc.addExtern ext.name) env).locals =
      env.locals := by
  induction es generalizing env with
  | nil => rfl
  | cons e rest ih =>
    simp only [List.foldl]
    rw [ih]
    rfl

theorem externFold_get (es : List (ExtDecl VarName FunName)) (env : LEnv)
    (f : FunName) (ft : FunType)
    (h : LEnv.get (es.foldl (fun acc ext => acc.addExtern ext.name) env)
      f = some ft) :
    ft = .Extern ∨ LEnv.get env f = some ft := by
  induction es generalizing env with
  | nil => exact Or.inr h
  | cons e rest ih =>
    simp only [List.foldl] at h
    rcases ih (env.addExtern e.name) h with h2 | h2
    · exact Or.inl h2
    · rw [LEnv_get_addExtern] at h2
      by_cases he : e.name = f
      · rw [if_pos he] at h2
        exact Or.inl (Option.some.inj h2).symm
      · rw [if_neg he] at h2
        exact Or.inr h2

theorem BlocksOkL_mem (bs : List BasicBlock) (S : BTable)
    (h : BlocksOkL S bs) :
    ∀ b ∈ bs, sLookup S b.label = some b.params.length ∧
      BodyOk S b.body := by
  induction bs with
  | nil => intro b hb; cases hb
  | cons hd rest ih =>
    cases hd with
    | mk label params body =>
      intro b hb
      rcases List.mem_cons.mp hb with rfl | hb2
      · exact h.1
      · exact ih h.2 b hb2

theorem BlocksOkL_of_forall (bs : List BasicBlock) (S : BTable)
    (h : BlocksOk S bs) : BlocksOkL S bs := by
  induction bs with
  | nil => trivial
  | cons hd rest ih =>
    cases hd with
    | mk label params body =>
      exact ⟨⟨(h _ (List.mem_cons_self _ _)).1,
        (h _ (List.mem_cons_self _ _)).2⟩,
        ih (fun b hb => h b (List.mem_cons_of_mem _ hb))⟩

mutual
theorem branchesInBody_ok (b : BlockBody) (S : BTable) (h : BodyOk S b) :
    ∀ br ∈ branchesInBody b,
      sLookup S br.target = some br.args.length := by
  match b with
  | .Terminator t =>
    cases t with
    | Return i => intro br hbr; simp [branchesInBody] at hbr
    | Branch br2 =>
      intro br hbr
      simp only [branchesInBody, List.mem_singleton] at hbr
      subst hbr
      exact h
    | ConditionalBranch c th el =>
      intro br hbr; simp [branchesInBody] at hbr
  | .Operation d op next => exact branchesInBody_ok next S h
  | .SubBlocks bs next =>
    intro br hbr
    simp only [branchesInBody, List.mem_append] at hbr
    rcases hbr with hbr | hbr
    · exact branchesInBlocks_ok bs S h.1 br hbr
    · exact branchesInBody_ok next S h.2 br hbr

theorem branchesInBlocks_ok (bs : List BasicBlock) (S : BTable)
    (h : BlocksOkL S bs) :
    ∀ br ∈ branchesInBlocks bs,
      sLookup S br.target = some br.args.length := by
  match bs with
  | [] => intro br hbr; simp [branchesInBlocks] at hbr
  | .mk label params body :: rest =>
    intro br hbr
    simp only [branchesInBlocks, List.mem_append] at hbr
    rcases hbr with hbr | hbr
    · exact branchesInBody_ok body S h.1.2 br hbr
    · exact branchesInBlocks_ok rest S h.2 br hbr
end

mutual
theorem condTargetsInBody_ok (b : BlockBody) (S : BTable)
    (h : BodyOk S b) :
    ∀ t ∈ condTargetsInBody b, sLookup S t = some 0 := by
  match b with
  | .Terminator tm =>
    cases tm with
    | Return i => intro t ht; simp [condTargetsInBody] at ht
    | Branch br2 => intro t ht; simp [condTargetsInBody] at ht
    | ConditionalBranch c th el =>
      intro t ht
      simp only [condTargetsInBody, List.mem_cons, List.mem_singleton,
        List.not_mem_nil, or_false] at ht
      rcases ht with rfl | rfl
      · exact h.1
      · exact h.2
  | .Operation d op next => exact condTargetsInBody_ok next S h
  | .SubBlocks bs next =>
    intro t ht
    simp only [condTargetsInBody, List.mem_append] at ht
    rcases ht with ht | ht
    · exact condTargetsInBlocks_ok bs S h.1 t ht
    · exact condTargetsInBody_ok next S h.2 t ht

theorem condTargetsInBlocks_ok (bs : List BasicBlock) (S : BTable)
    (h : BlocksOkL S bs) :
    ∀ t ∈ condTargetsInBlocks bs, sLookup S t = some 0 := by
  match bs with
  | [] => intro t ht; simp [condTargetsInBlocks] at ht
  | .mk label params body :: rest =>
    intro t ht
    simp only [condTargetsInBlocks, List.mem_append] at ht
    rcases ht with ht | ht
    · exact condTargetsInBody_ok body S h.1.2 t ht
    · exact condTargetsInBlocks_ok rest S h.2 t ht
end

mutual
theorem blocksInBody_ok (b : BlockBody) (S : BTable) (h : BodyOk S b) :
    ∀ blk ∈ blocksInBody b,
      sLookup S blk.label = some blk.params.length := by
  match b with
  | .Terminator t => intro blk hblk; simp [blocksInBody] at hblk
  | .Operation d op next => exact blocksInBody_ok next S h
  | .SubBlocks bs next =>
    intro blk hblk
    simp only [blocksInBody] at hblk
    rcases List.mem_append.mp hblk with hblk | hblk
    · rcases List.mem_append.mp hblk with hblk | hblk
      · exact (BlocksOkL_mem bs S h.1 blk hblk).1
      · exact blocksInBlocks_ok bs S h.1 blk hblk
    · exact blocksInBody_ok next S h.2 blk hblk

theorem blocksInBlocks_ok (bs : List BasicBlock) (S : BTable)
    (h : BlocksOkL S bs) :
    ∀ blk ∈ blocksInBlocks bs,
      sLookup S blk.label = some blk.params.length := by
  match bs with
  | [] => intro blk hblk; simp [blocksInBlocks] at hblk
  | .mk label params body :: rest =>
    intro blk hblk
    simp only [blocksInBlocks, List.mem_append] at hblk
    rcases hblk with hblk | hblk
    · exact blocksInBody_ok body S h.1.2 blk hblk
    · exact blocksInBlocks_ok rest S h.2 blk hblk
end

theorem progInv (P : Program) (S : BTable) (hb : BlocksOk S P.blocks)
    (hf : FunsOk S P.funs) :
    (∀ b ∈ progAllBlocks P, sLookup S b.label = some b.params.length) ∧
    (∀ br ∈ progBranches P,
      sLookup S br.target = some br.args.length) ∧
    (∀ t ∈ progCondTargets P, sLookup S t = some 0) := by
  have hL := BlocksOkL_of_forall P.blocks S hb
  refine ⟨?_, ?_, ?_⟩
  · intro b hbm
    simp only [progAllBlocks, List.mem_append] at hbm
    rcases hbm with hbm | hbm
    · exact (hb b hbm).1
    · exact blocksInBlocks_ok P.blocks S hL b hbm
  · intro br hbr
    simp only [progBranches, List.mem_append] at hbr
    rcases hbr with hbr | hbr
    · obtain ⟨fb, hfb, rfl⟩ := List.mem_map.mp hbr
      exact hf fb hfb
    · exact branchesInBlocks_ok P.blocks S hL br hbr
  · intro t ht
    exact condTargetsInBlocks_ok P.blocks S hL t ht

theorem lowerProg_inv (p : BoundProg) (l : Lowerer) (P : Program)
    (lout : Lowerer) (hws : WellScopedProg p)
    (hrun : lowerProg l p = .ok (P, lout)) :
    ∃ S, BlocksOk S P.blocks ∧ FunsOk S P.funs := by
  simp only [lowerProg, IdGen.freshBlock, IdGen.freshVar] at hrun
  rw [bindOk] at hrun
  obtain ⟨⟨main_block_body, l3x, envx, funs1, blocks1⟩, hbody, hrun⟩ :=
    hrun
  simp only [Except.ok.injEq, Prod.mk.injEq] at hrun
  obtain ⟨rfl, rfl⟩ := hrun
  obtain ⟨S2, hext, hle, hinv2, hbodyok⟩ :=
    lowerExprKont_inv p.body (progGamma p)
      [({ idx := l.blocks.count, hint := "main_tail" }, 1)]
      _ .Return _ _ _ main_block_body l3x envx funs1 blocks1 hws
      (by
        refine ⟨?_, ?_, ?_, ?_⟩
        · intro f ar c bn h1 h2
          rw [LEnv_get_pushLocal, LEnv_get_addLocalFun] at h2
          by_cases hpf : p.name = f
          · rw [if_pos hpf] at h2
            have h2x := Option.some.inj h2
            injection h2x with hcx hbnx
            subst hcx
            subst hbnx
            simp only [progGamma] at h1
            rw [gLookup_cons, if_pos hpf] at h1
            have har : ar = 1 := (Option.some.inj h1).symm
            subst har
            rw [sLookup_cons, if_pos rfl]
            rw [externFold_locals]
            rfl
          · rw [if_neg hpf] at h2
            rcases externFold_get p.externs LEnv.new f _ h2 with h3 | h3
            · cases h3
            · simp [LEnv.get, LEnv.new] at h3
        · intro fb hfb
          rw [List.mem_singleton] at hfb
          subst hfb
          rw [sLookup_cons, if_pos rfl]
          rfl
        · intro b hb
          cases hb
        · intro q hq
          rw [List.mem_singleton] at hq
          subst hq
          exact Nat.lt_succ_self _)
      trivial hbody
  refine ⟨S2, ?_, hinv2.2.1⟩
  refine BlocksOk_append S2 blocks1 _ hinv2.2.2.1 ?_ hbodyok
  show sLookup S2 { idx := l.blocks.count, hint := "main_tail" } =
    some [p.param.1].length
  exact hext _ 1 (by rw [sLookup_cons, if_pos rfl])

/-- C5: in every SSA program produced by lowering a well-resolved
bound program, every `Branch` (the one in each `FunBlock` body and
every one in (nested) block bodies) has an argument list whose length
equals the parameter-list length of every basic block carrying the
targeted label, and every `ConditionalBranch` targets only blocks with
empty parameter lists. -/
theorem C5_branch_arity_invariant (p : BoundProg) (l : Lowerer)
    (P : Program) (lout : Lowerer) (hws : WellScopedProg p)
    (hrun : lowerProg l p = .ok (P, lout)) :
    (∀ br ∈ progBranches P, ∀ b ∈ progAllBlocks P,
      b.label = br.target → br.args.length = b.params.length) ∧
    (∀ t ∈ progCondTargets P, ∀ b ∈ progAllBlocks P,
      b.label = t → b.params = []) := by
  obtain ⟨S, hb, hf⟩ := lowerProg_inv p l P lout hws hrun
  obtain ⟨hall, hbr, hct⟩ := progInv P S hb hf
  constructor
  · intro br hbr2 b hb2 heq
    have h1 := hbr br hbr2
    have h2 := hall b hb2
    rw [heq, h1] at h2
    exact Option.some.inj h2
  · intro t ht b hb2 heq
    have h1 := hct t ht
    have h2 := hall b hb2
    rw [heq, h1] at h2
    exact List.length_eq_zero.mp (Option.some.inj h2).symm

/-- Witness for C5: the fixture `def entry(x): let a = (if true: 1
else: 2) in a` is well-scoped and its lowering satisfies the
branch-arity invariant. -/
theorem C5_branch_arity_invariant_witness :
    WellScopedProg C5Bound ∧
    ((∀ br ∈ progBranches C5LowOut.1, ∀ b ∈ progAllBlocks C5LowOut.1,
      b.label = br.target → br.args.length = b.params.length) ∧
    (∀ t ∈ progCondTargets C5LowOut.1, ∀ b ∈ progAllBlocks C5LowOut.1,
      b.label = t → b.params = [])) := by
  have hws : WellScopedProg C5Bound := by
    refine WellScoped.Let _ _ _ _ ?_ ?_
    · intro b hb
      rw [List.mem_singleton] at hb
      subst hb
      exact WellScoped.If _ _ _ _ _ (WellScoped.Bool _ _ _)
        (WellScoped.Num _ _ _) (WellScoped.Num _ _ _)
    · exact WellScoped.Var _ _ _
  exact ⟨hws, C5_branch_arity_invariant C5Bound
    (Lowerer.fromResolver Resolver.new) C5LowOut.1 C5LowOut.2 hws rfl⟩


end Snake
